import Mathlib

/-!
# Shared-video betting game: round lifecycle, bet ledger, sync and reconnect

Shallow embedding of `src/server.js` (the authoritative round scheduler, the bet
ledger and the connection registry) and of `public/app.js` (reconnect back-off,
message handling and drift check).

Conventions of the embedding

* `Date.now()` is the field `now` of the state a handler runs in; one handler
  runs at one instant.
* JavaScript numbers that hold counters and millisecond instants are `Nat`,
  differences of instants are `Int` (integers below `2 ^ 53`, on which the arithmetic
  of the language is exact). Times in seconds are IEEE 754 binary64 values `Dbl`:
  a division and a subtraction round to the nearest value, ties to even; infinities
  and `NaN` do not arise from the instants and positions considered.
* `gameState.bets` is a JavaScript `Map`: an insertion-ordered association list
  with unique keys. `clients` is a JavaScript `Set` of socket objects: a list
  without repetition of socket identities.
* What a handler passes to `broadcast` or to `ws.send` is recorded as a list of
  `Emit` values; `broadcast` itself is embedded separately over the client set.
* A pending timer fires at its due instant, the earliest first and in creation order
  among equal due instants. A delay outside `1 .. 2 ^ 31 - 1` is set to 1 millisecond,
  as the timer facility of the host does. Configured durations are natural numbers; a
  negative duration is armed with 1 millisecond like the duration 0.
* A bet is the value of the `bet` field of a `place_bet` message as `JSON.parse`
  returns it: any JSON value, or `undefined` when the field is absent. An exception
  raised inside a handler or a timer callback ends that callback where it is raised;
  the `catch` of the message handler and the `uncaughtException` handler of the
  process log it, and the process goes on.
* The constant `message` texts and the `videoUrl` field (a function of
  `videoName` and the port) are left out of the messages.
-/

namespace WorkGame

/-! ## Values returned by `JSON.parse` -/

mutual
/-- A value read from a parsed message: `undefined` for an absent field, otherwise a JSON
value. A number is held as the text `String` gives it. -/
inductive JsonValue where
  | undefined
  | null
  | bool (b : Bool)
  | num (text : String)
  | str (s : String)
  | arr (items : JsonItems)
  | obj (fields : JsonFields)
deriving DecidableEq, Repr
/-- The elements of a JSON array. -/
inductive JsonItems where
  | nil
  | cons (head : JsonValue) (tail : JsonItems)
deriving DecidableEq, Repr
/-- The own properties of a JSON object, in order. -/
inductive JsonFields where
  | nil
  | cons (key : String) (value : JsonValue) (tail : JsonFields)
deriving DecidableEq, Repr
end

deriving instance DecidableEq for Except

/-- A text is the JSON value that holds it. -/
instance : Coe String JsonValue := ⟨JsonValue.str⟩

/-- Whether a parsed object has an own property `key`. -/
def JsonFields.hasKey : JsonFields → String → Bool
  | JsonFields.nil, _ => false
  | JsonFields.cons k _ rest, key => k == key || rest.hasKey key

mutual
/-- The conversion to text that a template literal and a computed property key apply
(`ToString`, `ToPropertyKey`). A parsed object converts through the inherited
`Object.prototype.toString`, unless it has an own property `toString`: that value is
never callable, the inherited `valueOf` returns the object itself, and the conversion
raises a `TypeError`. An array converts through `join`. -/
def JsonValue.jsToString : JsonValue → Except String String
  | JsonValue.undefined => Except.ok "undefined"
  | JsonValue.null => Except.ok "null"
  | JsonValue.bool b => Except.ok (if b then "true" else "false")
  | JsonValue.num text => Except.ok text
  | JsonValue.str s => Except.ok s
  | JsonValue.arr items => items.join
  | JsonValue.obj fields =>
    if fields.hasKey "toString" then
      Except.error "TypeError: Cannot convert object to primitive value"
    else Except.ok "[object Object]"
/-- `Array.prototype.join` with the separator `,`: `undefined` and `null` elements give
the empty text, every other element is converted. -/
def JsonItems.join : JsonItems → Except String String
  | JsonItems.nil => Except.ok ""
  | JsonItems.cons h t =>
    let next : Except String String :=
      match h with
      | JsonValue.undefined => Except.ok ""
      | JsonValue.null => Except.ok ""
      | _ => h.jsToString
    match t with
    | JsonItems.nil => next
    | _ =>
      match next, t.join with
      | Except.ok a, Except.ok b => Except.ok (a ++ "," ++ b)
      | Except.error e, _ => Except.error e
      | _, Except.error e => Except.error e
end

/-! ## JavaScript `Map` as used for `gameState.bets` -/

/-- The bet ledger: `clientId -> bet`, in insertion order. -/
abbrev BetMap := List (String × JsonValue)

/-- `Map.prototype.set`: replaces the value of an existing key in place, appends a new key. -/
def mapSet : BetMap → String → JsonValue → BetMap
  | [], k, v => [(k, v)]
  | (k', v') :: rest, k, v =>
    if k' = k then (k, v) :: rest else (k', v') :: mapSet rest k v

/-- `Map.prototype.get`. -/
def mapGet (m : BetMap) (k : String) : Option JsonValue :=
  (m.find? (fun e => e.1 = k)).map Prod.snd

/-- `Map.prototype.delete`. -/
def mapDelete (m : BetMap) (k : String) : BetMap :=
  m.filter (fun e => e.1 ≠ k)

/-- `Map.prototype.size`. -/
def mapSize (m : BetMap) : Nat := m.length

/-- Keys of a `Map` are pairwise distinct. -/
def UniqueKeys (m : BetMap) : Prop := (m.map Prod.fst).Nodup

/-! ## Server state (server.js 125-137) -/

/-- The `gameState` object. `null` is `none`. -/
structure GameState where
  currentVideo : Option String
  videoName : Option String
  startTime : Option Nat
  isPlaying : Bool
  bettingOpen : Bool
  roundDuration : Nat
  bettingDuration : Nat
  roundNumber : Nat
  bets : BetMap
deriving DecidableEq, Repr

/-- `WebSocket.OPEN`. -/
def OPEN : Nat := 1

/-- A socket object held in `clients`, with what the connection closure captured
(`clientIp`, `clientId`) and what the transport answers when asked
(`readyState`, and whether `send` raises). -/
structure Client where
  ws : Nat
  clientIp : String
  clientId : String
  readyState : Nat
  sendThrows : Bool
deriving DecidableEq, Repr

/-! ## JavaScript plain object as used for `betStats` -/

/-- A primitive value: what `+` returns. -/
inductive Prim where
  | num (n : Nat)
  | nan
  | str (s : String)
deriving DecidableEq, Repr

/-- A value read from a property of a plain object created by `{}`. -/
inductive JSVal where
  | undefined
  | prim (p : Prim)
  | fn (name : String)
  | objectPrototype
deriving DecidableEq, Repr

/-- Own enumerable properties of a plain object, in creation order. -/
abbrev JSObject := List (String × Prim)

/-- Names of the function-valued properties every plain object inherits from
`Object.prototype`, with the name of the function found there. -/
def objectPrototypeFunctions : List (String × String) :=
  [("constructor", "Object"),
   ("__defineGetter__", "__defineGetter__"),
   ("__defineSetter__", "__defineSetter__"),
   ("hasOwnProperty", "hasOwnProperty"),
   ("__lookupGetter__", "__lookupGetter__"),
   ("__lookupSetter__", "__lookupSetter__"),
   ("isPrototypeOf", "isPrototypeOf"),
   ("propertyIsEnumerable", "propertyIsEnumerable"),
   ("toString", "toString"),
   ("valueOf", "valueOf"),
   ("toLocaleString", "toLocaleString")]

/-- Property read on `Object.prototype` itself, reached when the object has no own property. -/
def inheritedGet (k : String) : JSVal :=
  if k = "__proto__" then JSVal.objectPrototype
  else match objectPrototypeFunctions.lookup k with
    | some f => JSVal.fn f
    | none => JSVal.undefined

/-- Property read `obj[k]`: own property first, then the prototype. -/
def jsGet (obj : JSObject) (k : String) : JSVal :=
  match obj.lookup k with
  | some p => JSVal.prim p
  | none => inheritedGet k

/-- Assignment `obj[k] = p` of a primitive: `__proto__` is an accessor whose setter
ignores primitives; any other key becomes (or updates) an own property. -/
def jsSet : JSObject → String → Prim → JSObject
  | obj, k, p =>
    if k = "__proto__" then obj
    else match obj with
      | [] => [(k, p)]
      | (k', p') :: rest => if k' = k then (k, p) :: rest else (k', p') :: jsSet rest k p

/-- JavaScript truthiness. -/
def truthy : JSVal → Bool
  | JSVal.undefined => false
  | JSVal.prim (Prim.num n) => n != 0
  | JSVal.prim Prim.nan => false
  | JSVal.prim (Prim.str s) => s != ""
  | JSVal.fn _ => true
  | JSVal.objectPrototype => true

/-- The expression `v || 0`. -/
def orZero (v : JSVal) : JSVal :=
  if truthy v then v else JSVal.prim (Prim.num 0)

/-- The expression `v + 1`: numeric addition on a number, string concatenation otherwise. -/
def plusOne : JSVal → Prim
  | JSVal.undefined => Prim.nan
  | JSVal.prim (Prim.num n) => Prim.num (n + 1)
  | JSVal.prim Prim.nan => Prim.nan
  | JSVal.prim (Prim.str s) => Prim.str (s ++ "1")
  | JSVal.fn name => Prim.str ("function " ++ name ++ "() \x7b [native code] \x7d" ++ "1")
  | JSVal.objectPrototype => Prim.str "[object Object]1"

/-- The statement `betStats[bet] = (betStats[bet] || 0) + 1` (server.js 211) for a bet
whose property key is `bet`. -/
def countBet (betStats : JSObject) (bet : String) : JSObject :=
  jsSet betStats bet (plusOne (orZero (jsGet betStats bet)))

/-- The callback of `gameState.bets.forEach` (server.js 210-212) over the values of the
ledger in insertion order: each value is converted to a property key and counted; a
conversion that raises ends the loop with that exception. -/
def countBets : JSObject → List JsonValue → Except String JSObject
  | betStats, [] => Except.ok betStats
  | betStats, bet :: rest =>
    match bet.jsToString with
    | Except.error e => Except.error e
    | Except.ok key => countBets (countBet betStats key) rest

/-- The bet statistics of the round-end timer (server.js 209-212): start from `{}` and
visit the values of `gameState.bets` in insertion order. -/
def betStats (bets : BetMap) : Except String JSObject :=
  countBets [] (bets.map Prod.snd)

/-! ## Messages (server.js, section 6 of the specification) -/

/-- Server to client messages. -/
inductive Msg where
  | game_start (videoName : Option String) (startTime : Option Nat) (serverTime : Nat)
      (roundNumber : Nat)
  | betting_closed (serverTime : Nat) (totalBets : Nat)
  | game_end (serverTime : Nat) (betStats : JSObject)
  | time_sync (elapsed : Int) (serverTime : Nat) (bettingOpen : Bool)
  | game_sync (videoName : Option String) (startTime : Option Nat) (elapsed : Int)
      (bettingOpen : Bool) (serverTime : Nat) (roundNumber : Nat)
  | waiting (serverTime : Nat)
  | bet_confirmed (bet : JsonValue) (serverTime : Nat)
  | bet_rejected (serverTime : Nat)
  | server_shutdown
deriving DecidableEq, Repr

/-- A parsed client to server message: the fields the server reads. -/
structure ClientData where
  type : String
  bet : JsonValue
deriving DecidableEq, Repr

/-- What a handler hands to the transport layer. -/
inductive Emit where
  | broadcast (data : Msg)
  | send (ws : Nat) (data : Msg)
deriving DecidableEq, Repr

/-! ## Timers and the server process -/

/-- The callbacks server.js registers with `setTimeout` and `setInterval`.
`syncInterval` carries the number of the round whose `startNewRound` call created it. -/
inductive TimerKind where
  | startNewRound
  | closeBetting
  | endRound
  | syncInterval (round : Nat)
deriving DecidableEq, Repr

/-- A pending timer: creation rank, instant at which it is due, callback. -/
structure Timer where
  id : Nat
  due : Nat
  kind : TimerKind
deriving DecidableEq, Repr

/-- The server process: `gameState`, `clients`, the pending timers of the event loop,
the clock, and the constant `ROUND_GAP`. -/
structure Server where
  gameState : GameState
  clients : List Client
  timers : List Timer
  now : Nat
  nextTimerId : Nat
  ROUND_GAP : Nat
deriving DecidableEq, Repr

/-- The largest delay the timer facility of the host accepts, `2 ^ 31 - 1`. -/
def TIMEOUT_MAX : Nat := 2147483647

/-- The delay a timer is armed with: a delay below 1 or above `TIMEOUT_MAX` is set to 1. -/
def timerDelay (delay : Nat) : Nat :=
  if 1 ≤ delay ∧ delay ≤ TIMEOUT_MAX then delay else 1

/-- `setTimeout(callback, delay)` (and the arming of `setInterval`): a new pending timer
due `timerDelay delay` milliseconds from now. -/
def setTimeout (s : Server) (kind : TimerKind) (delay : Nat) : Server :=
  { s with
    timers := s.timers ++
      [{ id := s.nextTimerId, due := s.now + timerDelay delay, kind := kind }]
    nextTimerId := s.nextTimerId + 1 }

/-- One outcome of `Math.random()`, a fraction `num / den` in `[0, 1)`. -/
structure Rand where
  num : Nat
  den : Nat
deriving DecidableEq, Repr

/-- `Math.floor(Math.random() * n)`. -/
def randomIndex (rnd : Rand) (n : Nat) : Nat := rnd.num * n / rnd.den

/-- `Date.now() - gameState.startTime` (`null` converts to 0). -/
def elapsedSince (now : Nat) (startTime : Option Nat) : Int :=
  (now : Int) - ((startTime.getD 0 : Nat) : Int)

/-- `startNewRound` (server.js 155-246). `videoFiles` is what `getVideoFiles()` returns
at this call and `rnd` the outcome of `Math.random()`. -/
def startNewRound (s : Server) (videoFiles : List String) (rnd : Rand) :
    Server × List Emit :=
  if videoFiles.length = 0 then
    (setTimeout s TimerKind.startNewRound 5000, [])
  else
    let randomVideo := videoFiles[randomIndex rnd videoFiles.length]?
    let g : GameState :=
      { s.gameState with
        currentVideo := randomVideo
        videoName := randomVideo
        startTime := some s.now
        isPlaying := true
        bettingOpen := true
        roundNumber := s.gameState.roundNumber + 1
        bets := [] }
    let s1 := { s with gameState := g }
    let s2 := setTimeout s1 TimerKind.closeBetting g.bettingDuration
    let s3 := setTimeout s2 TimerKind.endRound g.roundDuration
    let s4 := setTimeout s3 (TimerKind.syncInterval g.roundNumber) 1000
    (s4, [Emit.broadcast (Msg.game_start randomVideo g.startTime s.now g.roundNumber)])

/-- The betting-close callback (server.js 193-202). -/
def closeBetting (s : Server) : Server × List Emit :=
  let g : GameState := { s.gameState with bettingOpen := false }
  ({ s with gameState := g },
   [Emit.broadcast (Msg.betting_closed s.now (mapSize g.bets))])

/-- The round-end callback (server.js 205-229). When the tally raises, the callback
ends there: `isPlaying` is already `false`, nothing is broadcast and no timer for the
next round is armed. -/
def endRound (s : Server) : Server × List Emit :=
  let g : GameState := { s.gameState with isPlaying := false }
  let s1 := { s with gameState := g }
  match betStats g.bets with
  | Except.error _ => (s1, [])
  | Except.ok stats =>
    (setTimeout s1 TimerKind.startNewRound s.ROUND_GAP,
     [Emit.broadcast (Msg.game_end s.now stats)])

/-- The `syncInterval` callback (server.js 232-245): when no round is playing the
interval clears itself, otherwise it broadcasts and stays armed with period 1000. -/
def syncTick (s : Server) (round : Nat) : Server × List Emit :=
  if !s.gameState.isPlaying then
    (s, [])
  else
    (setTimeout s (TimerKind.syncInterval round) 1000,
     [Emit.broadcast (Msg.time_sync (elapsedSince s.now s.gameState.startTime) s.now
        s.gameState.bettingOpen)])

/-- `clients.add(ws)`. -/
def setAdd (clients : List Client) (c : Client) : List Client :=
  if clients.any (fun x => x.ws = c.ws) then clients else clients ++ [c]

/-- `clients.delete(ws)`. -/
def setDelete (clients : List Client) (ws : Nat) : List Client :=
  clients.filter (fun x => x.ws ≠ ws)

/-- The socket a new connection is: `clientId` is `clientIp-Date.now()`, the transport is open. -/
def newClient (now : Nat) (ws : Nat) (clientIp : String) : Client :=
  { ws := ws, clientIp := clientIp, clientId := clientIp ++ "-" ++ toString now,
    readyState := OPEN, sendThrows := false }

/-- The `connection` handler (server.js 268-296), up to the registration of the
per-socket handlers. -/
def onConnection (s : Server) (ws : Nat) (clientIp : String) : Server × List Emit :=
  let c := newClient s.now ws clientIp
  let s1 := { s with clients := setAdd s.clients c }
  if s.gameState.isPlaying then
    (s1, [Emit.send ws (Msg.game_sync s.gameState.videoName s.gameState.startTime
            (elapsedSince s.now s.gameState.startTime) s.gameState.bettingOpen s.now
            s.gameState.roundNumber)])
  else
    (s1, [Emit.send ws (Msg.waiting s.now)])

/-- The `message` handler of the connection `c` (server.js 299-333). `message` is
`none` when `JSON.parse` (or reading `data.type`) throws, which the handler catches.
An accepted bet is stored first (305); the log line converts it to text (306) and, when
that raises, the `catch` (330) ends the handler before `bet_confirmed` is sent. -/
def onMessage (s : Server) (c : Client) (message : Option ClientData) :
    Server × List Emit :=
  match message with
  | none => (s, [])
  | some data =>
    if data.type = "place_bet" then
      if s.gameState.bettingOpen then
        let s1 := { s with gameState :=
          { s.gameState with bets := mapSet s.gameState.bets c.clientId data.bet } }
        match data.bet.jsToString with
        | Except.error _ => (s1, [])
        | Except.ok _ => (s1, [Emit.send c.ws (Msg.bet_confirmed data.bet s.now)])
      else
        (s, [Emit.send c.ws (Msg.bet_rejected s.now)])
    else if data.type = "time_request" then
      let elapsed : Int :=
        if s.gameState.isPlaying then elapsedSince s.now s.gameState.startTime else 0
      (s, [Emit.send c.ws (Msg.time_sync elapsed s.now s.gameState.bettingOpen)])
    else
      (s, [])

/-- The `close` handler of the connection `c` (server.js 335-339). -/
def onClose (s : Server) (c : Client) : Server × List Emit :=
  ({ s with
      clients := setDelete s.clients c.ws
      gameState := { s.gameState with bets := mapDelete s.gameState.bets c.clientId } },
   [])

/-! ## `broadcast` (server.js 249-265) -/

/-- `client.send(message)`: returns normally or raises. -/
def Client.send (c : Client) (_message : Msg) : Except String Unit :=
  if c.sendThrows then Except.error "send failed" else Except.ok ()

/-- Bookkeeping of one `broadcast` call: the sockets on which `send` returned normally
(in iteration order), `successCount`, and the number of errors logged by the handler
of the `catch`. -/
structure BroadcastRun where
  delivered : List Nat
  successCount : Nat
  logged : Nat
deriving DecidableEq, Repr

/-- Body of the `forEach` callback of `broadcast`: the `try`/`catch` around `send`. -/
def broadcastEach (message : Msg) (acc : BroadcastRun) (client : Client) :
    Except String BroadcastRun :=
  if client.readyState = OPEN then
    match client.send message with
    | Except.ok _ =>
      Except.ok { acc with delivered := acc.delivered ++ [client.ws],
                           successCount := acc.successCount + 1 }
    | Except.error _ =>
      Except.ok { acc with logged := acc.logged + 1 }
  else
    Except.ok acc

/-- `broadcast(data)` over the current client set; an `Except.error` result would be
an exception leaving the call. -/
def broadcast (clients : List Client) (data : Msg) : Except String BroadcastRun :=
  clients.foldlM (broadcastEach data) { delivered := [], successCount := 0, logged := 0 }

/-! ## The event loop -/

/-- Pending timer that the event loop runs next: least due instant, and among those
the one created first. -/
def nextTimer : List Timer → Option Timer
  | [] => none
  | t :: rest =>
    match nextTimer rest with
    | none => some t
    | some u => if t.due < u.due ∨ (t.due = u.due ∧ t.id < u.id) then some t else some u

/-- Run the callback of a timer. -/
def runTimer (s : Server) (t : Timer) (videoFiles : List String) (rnd : Rand) :
    Server × List Emit :=
  match t.kind with
  | TimerKind.startNewRound => startNewRound s videoFiles rnd
  | TimerKind.closeBetting => closeBetting s
  | TimerKind.endRound => endRound s
  | TimerKind.syncInterval round => syncTick s round

/-- What can happen to the server process. -/
inductive Action where
  | timer (videoFiles : List String) (rnd : Rand)
  | elapse (ms : Nat)
  | connect (ws : Nat) (clientIp : String)
  | message (ws : Nat) (message : Option ClientData)
  | close (ws : Nat)
  | transport (ws : Nat) (readyState : Nat) (sendThrows : Bool)
deriving DecidableEq, Repr

/-- One turn of the event loop.
* `timer`: the next pending timer fires at its due instant;
* `elapse`: the clock advances, never past a pending timer;
* `connect`, `message`, `close`: the handlers, for a socket known to the process;
* `transport`: the transport of a socket changes state. -/
def step (s : Server) (a : Action) : Server × List Emit :=
  match a with
  | Action.timer videoFiles rnd =>
    match nextTimer s.timers with
    | none => (s, [])
    | some t =>
      runTimer { s with timers := s.timers.erase t, now := max s.now t.due } t videoFiles rnd
  | Action.elapse ms =>
    if s.timers.all (fun t => s.now + ms ≤ t.due) then ({ s with now := s.now + ms }, [])
    else (s, [])
  | Action.connect ws clientIp => onConnection s ws clientIp
  | Action.message ws message =>
    match s.clients.find? (fun c => c.ws = ws) with
    | none => (s, [])
    | some c => onMessage s c message
  | Action.close ws =>
    match s.clients.find? (fun c => c.ws = ws) with
    | none => (s, [])
    | some c => onClose s c
  | Action.transport ws readyState sendThrows =>
    ({ s with clients := s.clients.map (fun c =>
        if c.ws = ws then { c with readyState := readyState, sendThrows := sendThrows }
        else c) }, [])

/-- Run a sequence of turns, collecting what each turn emitted. -/
def run (s : Server) : List Action → Server × List (List Emit)
  | [] => (s, [])
  | a :: rest =>
    let r := step s a
    let q := run r.1 rest
    (q.1, r.2 :: q.2)

/-- The process right after start-up at instant `t0`: the `gameState` literal, no
client, and the first `startNewRound` due after 3 seconds (server.js 355-357). -/
def initialServer (BETTING_DURATION ROUND_DURATION ROUND_GAP t0 : Nat) : Server :=
  { gameState :=
      { currentVideo := none, videoName := none, startTime := none, isPlaying := false,
        bettingOpen := true, roundDuration := ROUND_DURATION,
        bettingDuration := BETTING_DURATION, roundNumber := 0, bets := [] }
    clients := []
    timers := [{ id := 0, due := t0 + 3000, kind := TimerKind.startNewRound }]
    now := t0
    nextTimerId := 1
    ROUND_GAP := ROUND_GAP }

/-! ## IEEE 754 binary64 arithmetic of the drift check -/

/-- Number of binary digits of `n`, by halving; `fuel` bounds the number of halvings. -/
def bitLength : Nat → Nat → Nat
  | 0, _ => 0
  | fuel + 1, n => if n = 0 then 0 else bitLength fuel (n / 2) + 1

/-- A finite binary64 value `mant * 2 ^ expo`: `mant` is odd, or the value is zero,
written `0 * 2 ^ 0`. -/
structure Dbl where
  mant : Int
  expo : Int
deriving DecidableEq, Repr

/-- Move the factors two of a mantissa to the exponent. -/
def stripTwos : Nat → Int → Int → Dbl
  | 0, m, e => { mant := m, expo := e }
  | fuel + 1, m, e =>
    if m = 0 then { mant := 0, expo := 0 }
    else if m % 2 = 0 then stripTwos fuel (m / 2) (e + 1)
    else { mant := m, expo := e }

/-- The value `m * 2 ^ e`. -/
def Dbl.mk2 (m e : Int) : Dbl :=
  if m = 0 then { mant := 0, expo := 0 } else stripTwos m.natAbs m e

/-- The integer nearest to `a / d`, ties to even. -/
def roundHalfEven (a d : Nat) : Nat :=
  let q := a / d
  let r := a % d
  if 2 * r < d then q
  else if 2 * r > d then q + 1
  else if q % 2 = 0 then q else q + 1

/-- The exponent `⌊log2 (a / d)⌋` of a positive ratio. -/
def floorLog2 (a d : Nat) : Int :=
  let k : Int := (bitLength a a : Int) - (bitLength d d : Int)
  if 0 ≤ k then
    if d * 2 ^ k.toNat ≤ a then k else k - 1
  else
    if d ≤ a * 2 ^ (-k).toNat then k else k - 1

/-- The binary64 value nearest to `num / den`, ties to even, with gradual underflow:
the result of the division of two integers below `2 ^ 53`. `den` is positive. -/
def Dbl.ofRatio (num : Int) (den : Nat) : Dbl :=
  if num = 0 then { mant := 0, expo := 0 }
  else
    let a := num.natAbs
    let e := max (floorLog2 a den) (-1022)
    let u := e - 52
    let r : Nat :=
      if u ≤ 0 then roundHalfEven (a * 2 ^ (-u).toNat) den
      else roundHalfEven a (den * 2 ^ u.toNat)
    Dbl.mk2 (if num < 0 then -(r : Int) else (r : Int)) u

/-- The subtraction `a - b`: the exact difference, rounded. -/
def Dbl.sub (a b : Dbl) : Dbl :=
  let e := min a.expo b.expo
  let m := a.mant * 2 ^ (a.expo - e).toNat - b.mant * 2 ^ (b.expo - e).toNat
  if 0 ≤ e then Dbl.ofRatio (m * 2 ^ e.toNat) 1 else Dbl.ofRatio m (2 ^ (-e).toNat)

/-- `Math.abs`. -/
def Dbl.abs (a : Dbl) : Dbl := { a with mant := (a.mant.natAbs : Int) }

/-- The comparison `a < b`. -/
def Dbl.lt (a b : Dbl) : Prop :=
  a.mant * 2 ^ (a.expo - min a.expo b.expo).toNat <
    b.mant * 2 ^ (b.expo - min a.expo b.expo).toNat

instance (a b : Dbl) : Decidable (Dbl.lt a b) := by
  unfold Dbl.lt; infer_instance

/-- The comparison `a <= b` of two finite values. -/
def Dbl.le (a b : Dbl) : Prop := ¬ Dbl.lt b a

instance (a b : Dbl) : Decidable (Dbl.le a b) := by
  unfold Dbl.le; infer_instance

/-! ## Client (app.js) -/

/-- The part of the `<video>` element the client script reads and writes. -/
structure VideoPlayer where
  currentTime : Dbl
  paused : Bool
deriving DecidableEq, Repr

/-- The mutable state of app.js (lines 16-23) next to the video element.
`syncCheckArmed` tells whether the interval held in `syncCheckInterval` is running. -/
structure App where
  currentBet : Option String
  bettingOpen : Bool
  gameStartTime : Option Nat
  syncCheckArmed : Bool
  reconnectAttempts : Nat
  maxReconnectAttempts : Nat
  videoPlayer : VideoPlayer
deriving DecidableEq, Repr

/-- `SYNC_CHECK_INTERVAL` (app.js 10). -/
def SYNC_CHECK_INTERVAL : Nat := 2000

/-- `MAX_SYNC_DIFF` (app.js 11), in seconds: the literal `0.5`. -/
def MAX_SYNC_DIFF : Dbl := Dbl.ofRatio 1 2

/-- The page as loaded: the initial values of app.js 16-23, the player at rest. -/
def initialApp : App :=
  { currentBet := none, bettingOpen := false, gameStartTime := none, syncCheckArmed := false,
    reconnectAttempts := 0, maxReconnectAttempts := 5,
    videoPlayer := { currentTime := Dbl.ofRatio 0 1, paused := true } }

/-- `ws.onopen` (app.js 73-77). -/
def onopen (a : App) : App :=
  { a with reconnectAttempts := 0 }

/-- `ws.onclose` (app.js 89-107): the new state and, when a reconnection is scheduled,
the delay passed to `setTimeout(connectWebSocket, delay)`. -/
def onclose (a : App) : App × Option Nat :=
  let a1 := { a with syncCheckArmed := false }
  if a1.reconnectAttempts < a1.maxReconnectAttempts then
    let a2 := { a1 with reconnectAttempts := a1.reconnectAttempts + 1 }
    (a2, some (min (1000 * 2 ^ a2.reconnectAttempts) 10000))
  else
    (a1, none)

/-- The delays scheduled by consecutive transport losses with no `onopen` in between;
`none` marks a loss after which nothing is scheduled. -/
def lossDelays : Nat → App → List (Option Nat)
  | 0, _ => []
  | n + 1, a => (onclose a).2 :: lossDelays n (onclose a).1

/-- The state after `n` consecutive transport losses. -/
def afterLosses : Nat → App → App
  | 0, a => a
  | n + 1, a => afterLosses n (onclose a).1

/-- JavaScript truthiness of `gameStartTime` (`null` and `0` are falsy). -/
def startTimeKnown (t : Option Nat) : Bool :=
  match t with
  | none => false
  | some n => n != 0

/-- `(Date.now() - gameStartTime) / 1000`, in seconds. -/
def serverElapsed (now : Nat) (gameStartTime : Option Nat) : Dbl :=
  Dbl.ofRatio ((now : Int) - ((gameStartTime.getD 0 : Nat) : Int)) 1000

/-- The `diff` of the drift check (app.js 293-295):
`Math.abs(serverElapsed - videoPlayer.currentTime)`. -/
def drift (a : App) (now : Nat) : Dbl :=
  Dbl.abs (Dbl.sub (serverElapsed now a.gameStartTime) a.videoPlayer.currentTime)

/-- What the client script does to the outside: a write to `videoPlayer.currentTime`
(a seek), a message passed to `ws.send`, `videoPlayer.load()` after the assignment of
`src`, `videoPlayer.play()`, the registration of `onMetadataLoaded` for the
`loadedmetadata` event, and the `setTimeout` of `game_end` that resets the bet. -/
inductive AppEffect where
  | seek (position : Dbl)
  | send (data : ClientData)
  | load
  | play
  | awaitMetadata (elapsed : Int)
  | resetBetLater (delay : Nat)
deriving DecidableEq, Repr

/-- The callback of the interval armed by `startSyncCheck` (app.js 290-314), run at
client clock reading `now`: the new state and the effects, in order. The text written
to `syncInfo` is presentation and left out. -/
def syncCheck (a : App) (now : Nat) : App × List AppEffect :=
  if !startTimeKnown a.gameStartTime || a.videoPlayer.paused then
    (a, [])
  else
    let diff := drift a now
    if Dbl.lt MAX_SYNC_DIFF diff ∧ Dbl.lt diff (Dbl.ofRatio 5 1) then
      ({ a with videoPlayer :=
          { a.videoPlayer with currentTime := serverElapsed now a.gameStartTime } },
       [AppEffect.seek (serverElapsed now a.gameStartTime)])
    else
      (a, [])

/-- What the browser answers during one handler run: `videoPlayer.readyState` as read
after `load()`, and whether `play()` is allowed to start playback. -/
structure Browser where
  readyState : Nat
  autoplayAllowed : Bool
deriving DecidableEq, Repr

/-- The element after `videoPlayer.src = videoUrl; videoPlayer.load()`: paused, at
position 0. -/
def videoLoad (v : VideoPlayer) : VideoPlayer :=
  { v with currentTime := Dbl.ofRatio 0 1, paused := true }

/-- The element after `videoPlayer.play()`: playing when playback is allowed, as it was
when the promise is rejected. -/
def videoPlay (v : VideoPlayer) (allowed : Bool) : VideoPlayer :=
  if allowed then { v with paused := false } else v

/-- `startSyncCheck` (app.js 283-315): any running interval is cleared and a new one is
armed with `syncCheck` as callback. -/
def startSyncCheck (a : App) : App :=
  { a with syncCheckArmed := true }

/-- `startGame(videoUrl, name, startTime)` (app.js 196-226). -/
def startGame (a : App) (startTime : Option Nat) (b : Browser) : App × List AppEffect :=
  let a1 := { a with bettingOpen := true, currentBet := none, gameStartTime := startTime }
  let a2 := { a1 with videoPlayer := videoPlay (videoLoad a1.videoPlayer) b.autoplayAllowed }
  (startSyncCheck a2, [AppEffect.load, AppEffect.play])

/-- The closure `onMetadataLoaded` of `syncGame` (app.js 238-253). -/
def onMetadataLoaded (a : App) (elapsed : Int) (b : Browser) : App × List AppEffect :=
  let seekTime : Dbl := Dbl.ofRatio elapsed 1000
  ({ a with videoPlayer :=
      videoPlay { a.videoPlayer with currentTime := seekTime } b.autoplayAllowed },
   [AppEffect.seek seekTime, AppEffect.play])

/-- `syncGame(videoUrl, name, elapsed, isBettingOpen)` (app.js 228-274). -/
def syncGame (a : App) (elapsed : Int) (isBettingOpen : Bool) (b : Browser) :
    App × List AppEffect :=
  let a1 := { a with bettingOpen := isBettingOpen, videoPlayer := videoLoad a.videoPlayer }
  let r := if b.readyState ≥ 1 then onMetadataLoaded a1 elapsed b
           else (a1, [AppEffect.awaitMetadata elapsed])
  let remaining : Int := max 0 (19 - elapsed / 1000)
  let a3 := if r.1.bettingOpen = true ∧ remaining > 0 then r.1
            else { r.1 with bettingOpen := false }
  (startSyncCheck a3, AppEffect.load :: r.2)

/-- `handleMessage(data)` (app.js 116-193) on the state of the script; writes to the page
that no later code reads are left out. In `bet_confirmed` the log line calls
`data.bet.toUpperCase()` first (148): for a bet that is not a text this raises, the
`catch` of `ws.onmessage` (83) ends the handler and `currentBet` is not assigned. -/
def handleMessage (a : App) (data : Msg) (b : Browser) : App × List AppEffect :=
  match data with
  | Msg.game_start _ startTime _ _ => startGame a startTime b
  | Msg.game_sync _ _ elapsed bettingOpen _ _ => syncGame a elapsed bettingOpen b
  | Msg.time_sync _ _ _ => (a, [])
  | Msg.betting_closed _ _ => ({ a with bettingOpen := false }, [])
  | Msg.bet_confirmed bet _ =>
    match bet with
    | JsonValue.str choice => ({ a with currentBet := some choice }, [])
    | _ => (a, [])
  | Msg.bet_rejected _ => (a, [])
  | Msg.game_end _ _ => ({ a with syncCheckArmed := false }, [AppEffect.resetBetLater 2000])
  | Msg.waiting _ => (a, [])
  | Msg.server_shutdown => (a, [])

/-! ## Vocabulary of the statements -/

/-- Number of ledger entries whose value is the choice `c`. -/
def countChoice (bets : BetMap) (c : String) : Nat :=
  (bets.map Prod.snd).count (JsonValue.str c)

/-- Numeric content of an optional own property. -/
def countOf : Option Prim → Nat
  | some (Prim.num n) => n
  | _ => 0

/-- Sum of the numeric values of the own properties of an object. -/
def sumCounts (obj : JSObject) : Nat :=
  (obj.map (fun e => countOf (some e.2))).sum

/-- A choice that names no property of `Object.prototype`. -/
def PlainChoice (c : String) : Prop := inheritedGet c = JSVal.undefined

/-- A bet that is a text naming no property of `Object.prototype`. -/
def PlainBet (v : JsonValue) : Prop := ∃ c, v = JsonValue.str c ∧ PlainChoice c

instance (c : String) : Decidable (PlainChoice c) := by
  unfold PlainChoice; infer_instance

/-- The object counts exactly according to `cnt`: a key is present exactly when its
count is positive, and then holds that count. -/
def Tallied (obj : JSObject) (cnt : String → Nat) : Prop :=
  ∀ c, obj.lookup c = if cnt c = 0 then none else some (Prim.num (cnt c))

/-- The state of a round as the specification names it, read off the two flags. -/
inductive Phase where
  | bettingOpen
  | bettingClosed
  | ended
deriving DecidableEq, Repr

/-- `BettingOpen` is `isPlaying` and `bettingOpen`, `BettingClosed` is `isPlaying` and not
`bettingOpen`, `Ended` is not `isPlaying`. -/
def phase (g : GameState) : Phase :=
  if g.isPlaying then
    if g.bettingOpen then Phase.bettingOpen else Phase.bettingClosed
  else Phase.ended

/-- The three lifecycle events of a round. -/
inductive Lifecycle where
  | game_start (roundNumber : Nat)
  | betting_closed
  | game_end
deriving DecidableEq, Repr

/-- The lifecycle event an emission is, if any. -/
def lifecycleOf : Emit → Option Lifecycle
  | Emit.broadcast (Msg.game_start _ _ _ r) => some (Lifecycle.game_start r)
  | Emit.broadcast (Msg.betting_closed _ _) => some Lifecycle.betting_closed
  | Emit.broadcast (Msg.game_end _ _) => some Lifecycle.game_end
  | _ => none

/-- The lifecycle events of a run, in order of emission. -/
def lifecycleTrace (outs : List (List Emit)) : List Lifecycle :=
  outs.flatten.filterMap lifecycleOf

/-- The first `n` lifecycle events to expect from a process that is in phase `p` of
round `r`: `game_start`, `betting_closed`, `game_end` of one round after the other. -/
def expectedFrom : Phase → Nat → Nat → List Lifecycle
  | _, _, 0 => []
  | Phase.ended, r, n + 1 =>
    Lifecycle.game_start (r + 1) :: expectedFrom Phase.bettingOpen (r + 1) n
  | Phase.bettingOpen, r, n + 1 =>
    Lifecycle.betting_closed :: expectedFrom Phase.bettingClosed r n
  | Phase.bettingClosed, r, n + 1 =>
    Lifecycle.game_end :: expectedFrom Phase.ended r n

/-- The phase reached from phase `p` after `n` lifecycle events. -/
def phaseAfter : Phase → Nat → Phase
  | p, 0 => p
  | Phase.ended, n + 1 => phaseAfter Phase.bettingOpen n
  | Phase.bettingOpen, n + 1 => phaseAfter Phase.bettingClosed n
  | Phase.bettingClosed, n + 1 => phaseAfter Phase.ended n

/-- Timers of the round lifecycle, as opposed to sync intervals. -/
def isLifecycleTimer (t : Timer) : Bool :=
  match t.kind with
  | TimerKind.syncInterval _ => false
  | _ => true

/-- The pending lifecycle timers, in creation order. -/
def lifecycleTimers (s : Server) : List Timer := s.timers.filter isLifecycleTimer

/-- The order in which the event loop runs timers: `t` fires before `u`. -/
def Timer.before (t u : Timer) : Prop :=
  t.due < u.due ∨ (t.due = u.due ∧ t.id < u.id)

/-- What is pending in each phase: between rounds one `startNewRound`, or nothing
after a round-end callback that raised; with betting open the betting-close and the
round-end timers of the round, the first due no later and created earlier; with betting
closed the round-end timer. -/
def Pending (s : Server) : Prop :=
  match phase s.gameState with
  | Phase.ended =>
    lifecycleTimers s = [] ∨ ∃ t, lifecycleTimers s = [t] ∧ t.kind = TimerKind.startNewRound
  | Phase.bettingOpen =>
    ∃ cb er, lifecycleTimers s = [cb, er] ∧ cb.kind = TimerKind.closeBetting ∧
      er.kind = TimerKind.endRound ∧ cb.due ≤ er.due ∧ cb.id < er.id
  | Phase.bettingClosed => ∃ er, lifecycleTimers s = [er] ∧ er.kind = TimerKind.endRound

/-- The invariant of the scheduler: the betting window is no longer than the round, the
round is no longer than the largest timer delay, and the pending lifecycle timers are
those of the phase. -/
def Scheduled (s : Server) : Prop :=
  s.gameState.bettingDuration ≤ s.gameState.roundDuration ∧
  s.gameState.roundDuration ≤ TIMEOUT_MAX ∧ Pending s

/-- Every recorded bet converts to text. -/
def TextLedger (s : Server) : Prop :=
  ∀ e ∈ s.gameState.bets, ∃ text, e.2.jsToString = Except.ok text

/-- Every bet submitted in the turns converts to text. -/
def TextBets (as : List Action) : Prop :=
  ∀ ws data, Action.message ws (some data) ∈ as → data.type = "place_bet" →
    ∃ text, data.bet.jsToString = Except.ok text

/-- A round is in progress, its round-end timer is due at `deadline`, and every
recorded bet converts to text. -/
def PlayingUntil (s : Server) (deadline : Nat) : Prop :=
  Scheduled s ∧ TextLedger s ∧ phase s.gameState ≠ Phase.ended ∧
  ∃ er ∈ lifecycleTimers s, er.kind = TimerKind.endRound ∧ er.due = deadline

/-- One turn either emits no lifecycle event and keeps phase and round number, or makes
one of the three transitions of the round and emits exactly the event of that
transition. -/
def LifecycleStep (s : Server) (es : List Emit) (s' : Server) : Prop :=
  (es.filterMap lifecycleOf = [] ∧ phase s'.gameState = phase s.gameState ∧
    s'.gameState.roundNumber = s.gameState.roundNumber) ∨
  (es.filterMap lifecycleOf = [Lifecycle.game_start (s.gameState.roundNumber + 1)] ∧
    phase s.gameState = Phase.ended ∧ phase s'.gameState = Phase.bettingOpen ∧
    s'.gameState.roundNumber = s.gameState.roundNumber + 1) ∨
  (es.filterMap lifecycleOf = [Lifecycle.betting_closed] ∧
    phase s.gameState = Phase.bettingOpen ∧ phase s'.gameState = Phase.bettingClosed ∧
    s'.gameState.roundNumber = s.gameState.roundNumber) ∨
  (es.filterMap lifecycleOf = [Lifecycle.game_end] ∧
    phase s.gameState = Phase.bettingClosed ∧ phase s'.gameState = Phase.ended ∧
    s'.gameState.roundNumber = s.gameState.roundNumber)

/-- The round-end callback raised in its tally: the round ends without a `game_end`. -/
def SilentEnd (s : Server) (es : List Emit) (s' : Server) : Prop :=
  es.filterMap lifecycleOf = [] ∧
  phase s.gameState = Phase.bettingClosed ∧ phase s'.gameState = Phase.ended ∧
  s'.gameState.roundNumber = s.gameState.roundNumber ∧
  ∃ e, betStats s.gameState.bets = Except.error e

/-- Number of timer turns in a sequence of turns. -/
def timerTurns : List Action → Nat
  | [] => 0
  | Action.timer _ _ :: rest => timerTurns rest + 1
  | _ :: rest => timerTurns rest

/-- Weight of a pending timer before the instant `deadline`: the time left to the
deadline plus one when it is due by then, nothing otherwise. -/
def timerWeight (deadline : Nat) (t : Timer) : Nat :=
  if t.due ≤ deadline then deadline + 1 - t.due else 0

/-- Work the event loop has before the instant `deadline`. -/
def backlog (timers : List Timer) (deadline : Nat) : Nat :=
  (timers.map (timerWeight deadline)).sum

/-- The armed sync intervals, in creation order. -/
def syncTimers (s : Server) : List Timer := s.timers.filter (fun t => !isLifecycleTimer t)

/-- The sync intervals are under control: timer ids are below the next id, at most one
sync interval is armed, while a round is playing every armed sync interval is the one
of that round and is due within the sync period, and between rounds every armed sync
interval fires before the pending `startNewRound`. -/
def Tickers (s : Server) : Prop :=
  (∀ u ∈ s.timers, u.id < s.nextTimerId) ∧
  (syncTimers s).length ≤ 1 ∧
  (s.gameState.isPlaying = true →
    ∀ u ∈ s.timers, ∀ r, u.kind = TimerKind.syncInterval r →
      r = s.gameState.roundNumber ∧ u.due ≤ s.now + 1000) ∧
  (s.gameState.isPlaying = false →
    ∀ u ∈ s.timers, ∀ r, u.kind = TimerKind.syncInterval r →
      ∀ st ∈ s.timers, st.kind = TimerKind.startNewRound → u.before st)

/-! ## Sample runs used in the closed instances -/

/-- The default configuration (19 s betting, 30 s round, 5 s gap), started at instant 0. -/
def server0 : Server := initialServer 19000 30000 5000 0

/-- A timer turn with one video available. -/
def tick : Action := Action.timer ["a.mp4"] { num := 0, den := 1 }

/-- The first client of the sample runs, connected at instant 13000. -/
def alice : Client := newClient 13000 1 "10.0.0.1"

/-- Ten seconds into round 1: `alice` has joined and bet "red". -/
def midRound : Server :=
  (run server0 (List.replicate 11 tick ++
    [Action.connect 1 "10.0.0.1",
     Action.message 1 (some { type := "place_bet", bet := "red" })])).1

/-- Round 1 right after its betting window closed (instant 22000). -/
def closedRound : Server := (run midRound (List.replicate 9 tick)).1

/-- Round 1 played to its end with one client whose bet is the choice "constructor". -/
def constructorRun : List Action :=
  List.replicate 11 tick ++
    [Action.connect 1 "10.0.0.1",
     Action.message 1 (some { type := "place_bet", bet := "constructor" })] ++
  List.replicate 21 tick

/-- The parsed bet `\x7b"toString":0\x7d`: an object whose own property `toString` is a
number. -/
def toStringBet : JsonValue :=
  JsonValue.obj (JsonFields.cons "toString" (JsonValue.num "0") JsonFields.nil)

/-- A playing client ten seconds into a round, the player at `position` seconds. -/
def playingAt (position : Dbl) : App :=
  { initialApp with gameStartTime := some 1000,
                    videoPlayer := { currentTime := position, paused := false } }

/-- The second client of the sample runs, connected at instant 13000. -/
def bob : Client := newClient 13000 2 "10.0.0.2"

/-- Ten seconds into round 1 with two bets: "red" by `alice`, "blue" by `bob`. -/
def twoBets : Server :=
  (run midRound
    [Action.connect 2 "10.0.0.2",
     Action.message 2 (some { type := "place_bet", bet := "blue" })]).1

/-- Round 1 played to its end; `alice` bets "red" at instant 13000 and closes at instant
22000, after the betting window has closed and before the round ends. -/
def lateCloseRun : List Action :=
  List.replicate 11 tick ++
    [Action.connect 1 "10.0.0.1",
     Action.message 1 (some { type := "place_bet", bet := "red" })] ++
  List.replicate 9 tick ++ [Action.close 1] ++ List.replicate 12 tick

/-- Round 1 of the default configuration played to its round-end instant with one client
whose bet, sent at instant 13000, is the object `toStringBet`. -/
def toStringRun : List Action :=
  List.replicate 11 tick ++
    [Action.connect 1 "10.0.0.1",
     Action.message 1 (some { type := "place_bet", bet := toStringBet })] ++
  List.replicate 22 tick

/-- Ten seconds into round 1 two sockets connect from the same address at the same
instant, so that both get the `clientId` "10.0.0.1-13000"; socket 1 bets "red". -/
def sharedIdRun : List Action :=
  List.replicate 11 tick ++
    [Action.connect 1 "10.0.0.1", Action.connect 2 "10.0.0.1",
     Action.message 1 (some { type := "place_bet", bet := "red" })]

/-- Round 1 played to its end, the scenario of the specification: `alice` bets "red",
`bob` bets "blue" and disconnects at instant 13000, before the betting window closes. -/
def earlyCloseRun : List Action :=
  List.replicate 11 tick ++
    [Action.connect 1 "10.0.0.1",
     Action.message 1 (some { type := "place_bet", bet := "red" }),
     Action.connect 2 "10.0.0.2",
     Action.message 2 (some { type := "place_bet", bet := "blue" }),
     Action.close 2] ++
  List.replicate 21 tick

/-- The default configuration before the first round: a client connects one second
after start-up and bets "red" at once. -/
def earlyBetRun : List Action :=
  [Action.elapse 1000, Action.connect 1 "10.0.0.1",
   Action.message 1 (some { type := "place_bet", bet := "red" })]

/-- A configuration whose inter-round gap (200 ms) is shorter than the sync period:
19 s betting, 30.5 s round, started at instant 0. -/
def shortGap : Server := initialServer 19000 30500 200 0

/-- The late-join snapshot of round 1 sent at instant 13000. -/
def lateJoinSnapshot : Msg := Msg.game_sync (some "a.mp4") (some 3000) 10000 true 13000 1

/-- A browser that has no metadata yet right after `load()` and allows playback. -/
def browser0 : Browser := { readyState := 0, autoplayAllowed := true }

/-- A client that followed round 1 (started at instant 3000) to its end. -/
def afterRoundOne : App :=
  (handleMessage
    (handleMessage initialApp (Msg.game_start (some "a.mp4") (some 3000) 3000 1) browser0).1
    (Msg.game_end 33000 []) browser0).1

/-! # Properties -/

/-! ## Facts about the ledger operations -/

theorem mapGet_nil (k : String) : mapGet [] k = none := rfl

theorem mapGet_cons (e : String × JsonValue) (m : BetMap) (k : String) :
    mapGet (e :: m) k = if e.1 = k then some e.2 else mapGet m k := by
  unfold mapGet
  by_cases h : e.1 = k <;> simp [List.find?, h]

theorem mapGet_mapSet_self (m : BetMap) (k : String) (v : JsonValue) : mapGet (mapSet m k v) k = some v := by
  induction m with
  | nil => simp [mapSet, mapGet_cons]
  | cons e rest ih =>
    obtain ⟨k', v'⟩ := e
    by_cases h : k' = k
    · simp [mapSet, h, mapGet_cons]
    · simp [mapSet, h, mapGet_cons, ih]

theorem mapGet_mapSet_other (m : BetMap) (k : String) (v : JsonValue) (k' : String)
    (hne : k' ≠ k) :
    mapGet (mapSet m k v) k' = mapGet m k' := by
  induction m with
  | nil => simp [mapSet, mapGet_cons, mapGet_nil, Ne.symm hne]
  | cons e rest ih =>
    obtain ⟨k0, v0⟩ := e
    by_cases h : k0 = k
    · subst h
      simp [mapSet, mapGet_cons, Ne.symm hne]
    · simp [mapSet, h, mapGet_cons, ih]

theorem mapGet_eq_none_iff (m : BetMap) (k : String) :
    mapGet m k = none ↔ k ∉ m.map Prod.fst := by
  induction m with
  | nil => simp [mapGet_nil]
  | cons e rest ih =>
    by_cases h : e.1 = k
    · simp [mapGet_cons, h]
    · simp only [mapGet_cons, h, if_false, ih, List.map_cons, List.mem_cons, not_or]
      constructor
      · intro h1; exact ⟨fun h2 => h h2.symm, h1⟩
      · intro h1; exact h1.2

theorem keys_mapSet (m : BetMap) (k : String) (v : JsonValue) :
    (mapSet m k v).map Prod.fst =
      if k ∈ m.map Prod.fst then m.map Prod.fst else m.map Prod.fst ++ [k] := by
  induction m with
  | nil => simp [mapSet]
  | cons e rest ih =>
    obtain ⟨k0, v0⟩ := e
    by_cases h : k0 = k
    · subst h; simp [mapSet]
    · have h' : ¬ k = k0 := fun h2 => h h2.symm
      simp only [mapSet, h, if_false, List.map_cons, ih, List.mem_cons, h', false_or]
      split <;> simp

theorem uniqueKeys_mapSet (m : BetMap) (k : String) (v : JsonValue) (h : UniqueKeys m) :
    UniqueKeys (mapSet m k v) := by
  unfold UniqueKeys at *
  rw [keys_mapSet]
  split
  · exact h
  · rename_i hk
    exact List.Nodup.append h (List.nodup_singleton k) (by simpa using hk)

theorem length_mapSet (m : BetMap) (k : String) (v : JsonValue) :
    (mapSet m k v).length = if k ∈ m.map Prod.fst then m.length else m.length + 1 := by
  have := congrArg List.length (keys_mapSet m k v)
  simp only [List.length_map] at this
  rw [this]
  split <;> simp

theorem mapGet_mapDelete_self (m : BetMap) (k : String) : mapGet (mapDelete m k) k = none := by
  rw [mapGet_eq_none_iff]
  simp [mapDelete]

theorem mapGet_mapDelete_other (m : BetMap) (k k' : String) (hne : k' ≠ k) :
    mapGet (mapDelete m k) k' = mapGet m k' := by
  induction m with
  | nil => rfl
  | cons e rest ih =>
    by_cases h : e.1 = k
    · have h2 : ¬ e.1 = k' := fun h3 => hne (h3.symm.trans h)
      have h3 : mapDelete (e :: rest) k = mapDelete rest k := by simp [mapDelete, h]
      rw [h3, ih, mapGet_cons, if_neg h2]
    · have h3 : mapDelete (e :: rest) k = e :: mapDelete rest k := by simp [mapDelete, h]
      rw [h3, mapGet_cons, mapGet_cons, ih]

theorem mapDelete_of_absent (m : BetMap) (k : String) (h : mapGet m k = none) :
    mapDelete m k = m := by
  rw [mapGet_eq_none_iff] at h
  unfold mapDelete
  rw [List.filter_eq_self]
  intro e he
  simp only [ne_eq, decide_not, Bool.not_eq_eq_eq_not, Bool.not_true, decide_eq_false_iff_not]
  intro h2
  exact h (List.mem_map.mpr ⟨e, he, h2⟩)

theorem uniqueKeys_mapDelete (m : BetMap) (k : String) (h : UniqueKeys m) :
    UniqueKeys (mapDelete m k) := by
  unfold UniqueKeys mapDelete at *
  exact List.Nodup.sublist (List.Sublist.map _ (List.filter_sublist _)) h

/-! ## Bet submission while betting is closed -/

/-- C1. In a state with `bettingOpen = false`, a `place_bet` message from any connection
leaves the whole server state (the bet ledger included) unchanged, and the handler
emits exactly one message: a `bet_rejected` sent to the submitting socket; nothing is
broadcast and no `bet_confirmed` is sent. -/
theorem place_bet_closed_rejected (s : Server) (c : Client) (data : ClientData)
    (hclosed : s.gameState.bettingOpen = false) (htype : data.type = "place_bet") :
    (onMessage s c (some data)).1 = s ∧
    (onMessage s c (some data)).1.gameState.bets = s.gameState.bets ∧
    (onMessage s c (some data)).2 = [Emit.send c.ws (Msg.bet_rejected s.now)] ∧
    (∀ m, Emit.broadcast m ∉ (onMessage s c (some data)).2) ∧
    (∀ ws bet t, Emit.send ws (Msg.bet_confirmed bet t) ∉ (onMessage s c (some data)).2) := by
  have h : onMessage s c (some data) = (s, [Emit.send c.ws (Msg.bet_rejected s.now)]) := by
    simp [onMessage, hclosed, htype]
  rw [h]
  simp

/-- Instance of C1 on the sample run: at instant 22000 the window of round 1 has closed
and the bet "blue" of `alice` is answered by `bet_rejected` only. -/
theorem place_bet_closed_rejected_witness :
    closedRound.gameState.bettingOpen = false ∧
    (onMessage closedRound alice (some { type := "place_bet", bet := "blue" })).1.gameState.bets
      = [("10.0.0.1-13000", JsonValue.str "red")] ∧
    (onMessage closedRound alice (some { type := "place_bet", bet := "blue" })).2
      = [Emit.send 1 (Msg.bet_rejected 22000)] :=
  ⟨by decide,
   (place_bet_closed_rejected closedRound alice { type := "place_bet", bet := "blue" }
      (by decide) rfl).2.1.trans (by decide),
   (place_bet_closed_rejected closedRound alice { type := "place_bet", bet := "blue" }
      (by decide) rfl).2.2.1.trans (by decide)⟩

/-! ## A second bet while betting is open -/

/-- C2 as stated fails: with betting open, `alice` holding the recorded bet "red" and
sending `place_bet` "blue", the ledger does not keep "red" and a `bet_confirmed` for
"blue" is sent. A second bet that is the object `\x7b"toString":0\x7d` replaces "red" in
the ledger as well, and that submitter gets no answer at all. -/
theorem second_bet_first_wins_counterexample :
    ¬ (∀ (s : Server) (c : Client) (data : ClientData) (first : JsonValue),
        s.gameState.bettingOpen = true → mapGet s.gameState.bets c.clientId = some first →
        data.type = "place_bet" →
        mapGet (onMessage s c (some data)).1.gameState.bets c.clientId = some first ∧
        Emit.send c.ws (Msg.bet_confirmed data.bet s.now) ∉ (onMessage s c (some data)).2) ∧
    mapGet midRound.gameState.bets alice.clientId = some (JsonValue.str "red") ∧
    mapGet (onMessage midRound alice (some { type := "place_bet", bet := "blue" })).1.gameState.bets
      alice.clientId = some (JsonValue.str "blue") ∧
    (onMessage midRound alice (some { type := "place_bet", bet := "blue" })).2
      = [Emit.send 1 (Msg.bet_confirmed (JsonValue.str "blue") 13000)] ∧
    mapGet (onMessage midRound alice
      (some { type := "place_bet", bet := toStringBet })).1.gameState.bets
      alice.clientId = some toStringBet ∧
    (onMessage midRound alice (some { type := "place_bet", bet := toStringBet })).2 = [] := by
  refine ⟨?_, by decide, by decide, by decide, by decide, by decide⟩
  intro h
  have h1 := (h midRound alice { type := "place_bet", bet := "blue" } (JsonValue.str "red")
    (by decide) (by decide) rfl).1
  revert h1
  decide

/-- C2 as amended. With betting open, a `place_bet` from a connection is accepted
whether or not that connection already has a recorded bet: afterwards the ledger maps
the connection to the submitted choice (last wins), every other key of the ledger keeps
its value, keys stay unique, and a connection that already had an entry leaves the size
of the ledger unchanged. When the submitted choice converts to text, as every text,
number, boolean and `null` does, the only emission is a `bet_confirmed` for the
submitted choice sent to the submitter. -/
theorem second_bet_overwrites (s : Server) (c : Client) (data : ClientData)
    (hopen : s.gameState.bettingOpen = true) (htype : data.type = "place_bet") :
    mapGet (onMessage s c (some data)).1.gameState.bets c.clientId = some data.bet ∧
    (∀ k, k ≠ c.clientId →
      mapGet (onMessage s c (some data)).1.gameState.bets k = mapGet s.gameState.bets k) ∧
    (UniqueKeys s.gameState.bets → UniqueKeys (onMessage s c (some data)).1.gameState.bets) ∧
    (mapGet s.gameState.bets c.clientId ≠ none →
      mapSize (onMessage s c (some data)).1.gameState.bets = mapSize s.gameState.bets) ∧
    (∀ text, data.bet.jsToString = Except.ok text →
      (onMessage s c (some data)).2 = [Emit.send c.ws (Msg.bet_confirmed data.bet s.now)]) ∧
    ((∃ t, data.bet = JsonValue.str t) ∨ (∃ n, data.bet = JsonValue.num n) ∨
      (∃ b, data.bet = JsonValue.bool b) ∨ data.bet = JsonValue.null →
      (onMessage s c (some data)).2 = [Emit.send c.ws (Msg.bet_confirmed data.bet s.now)]) := by
  have hstate : (onMessage s c (some data)).1 =
      { s with gameState :=
          { s.gameState with bets := mapSet s.gameState.bets c.clientId data.bet } } := by
    simp only [onMessage, hopen, htype, if_true]
    split <;> rfl
  have hemit : ∀ text, data.bet.jsToString = Except.ok text →
      (onMessage s c (some data)).2 = [Emit.send c.ws (Msg.bet_confirmed data.bet s.now)] := by
    intro text ht
    simp only [onMessage, hopen, htype, if_true, ht]
  rw [hstate]
  refine ⟨mapGet_mapSet_self _ _ _, fun k hk => mapGet_mapSet_other _ _ _ _ hk,
    uniqueKeys_mapSet _ _ _, ?_, hemit, ?_⟩
  · intro hne
    have hmem : c.clientId ∈ s.gameState.bets.map Prod.fst := by
      by_contra hc
      exact hne ((mapGet_eq_none_iff _ _).mpr hc)
    simp only [mapSize, length_mapSet, hmem, if_true]
  · rintro (⟨t, ht⟩ | ⟨n, hn⟩ | ⟨b, hb⟩ | hnull)
    · exact hemit t (by rw [ht]; rfl)
    · exact hemit n (by rw [hn]; rfl)
    · exact hemit (if b then "true" else "false") (by rw [hb]; rfl)
    · exact hemit "null" (by rw [hnull]; rfl)

/-- Instance of C2 as amended on the sample run: the second bet "blue" of `alice`
replaces her recorded "red" and is confirmed. -/
theorem second_bet_overwrites_witness :
    midRound.gameState.bettingOpen = true ∧
    mapGet midRound.gameState.bets alice.clientId = some (JsonValue.str "red") ∧
    mapGet (onMessage midRound alice (some { type := "place_bet", bet := "blue" })).1.gameState.bets
      alice.clientId = some (JsonValue.str "blue") ∧
    (onMessage midRound alice (some { type := "place_bet", bet := "blue" })).2
      = [Emit.send 1 (Msg.bet_confirmed (JsonValue.str "blue") 13000)] :=
  ⟨by decide, by decide,
   (second_bet_overwrites midRound alice { type := "place_bet", bet := "blue" }
      (by decide) rfl).1,
   ((second_bet_overwrites midRound alice { type := "place_bet", bet := "blue" }
      (by decide) rfl).2.2.2.2.1 "blue" rfl).trans (by decide)⟩

/-! ## The bet statistics of `game_end` -/

theorem plainChoice_ne_proto (c : String) (h : PlainChoice c) : c ≠ "__proto__" := by
  intro hc
  unfold PlainChoice inheritedGet at h
  simp [hc] at h

theorem lookup_jsSet (obj : JSObject) (k : String) (p : Prim) (hk : k ≠ "__proto__")
    (c : String) :
    (jsSet obj k p).lookup c = if c = k then some p else obj.lookup c := by
  induction obj with
  | nil =>
    unfold jsSet
    by_cases h : c = k
    · simp [hk, List.lookup, h]
    · have hb : (c == k) = false := by simpa using h
      simp [hk, List.lookup, h, hb]
  | cons e rest ih =>
    obtain ⟨k0, p0⟩ := e
    unfold jsSet
    by_cases h0 : k0 = k
    · subst h0
      by_cases h : c = k0
      · simp [hk, List.lookup, h]
      · have hb : (c == k0) = false := by simpa using h
        simp [hk, List.lookup, h, hb]
    · by_cases h : c = k
      · subst h
        have : (c == k0) = false := by simpa using fun h2 => h0 h2.symm
        simp [hk, h0, List.lookup, this, ih]
      · simp [hk, h0, List.lookup, ih, h]

theorem tallied_countBet (obj : JSObject) (cnt : String → Nat) (b : String)
    (hb : PlainChoice b) (h : Tallied obj cnt) :
    Tallied (countBet obj b) (fun c => cnt c + if c = b then 1 else 0) := by
  intro c
  have hne := plainChoice_ne_proto b hb
  unfold countBet
  rw [lookup_jsSet _ _ _ hne]
  by_cases hc : c = b
  · subst hc
    simp only [if_true]
    have hl := h c
    unfold jsGet
    by_cases h0 : cnt c = 0
    · rw [hl]
      simp only [h0, if_true]
      unfold PlainChoice at hb
      simp [hb, orZero, truthy, plusOne]
    · rw [hl]
      simp [h0, orZero, truthy, plusOne]
  · simp only [hc, if_false, Nat.add_zero]
    exact h c

theorem sumCounts_jsSet (obj : JSObject) (k : String) (p : Prim) (hk : k ≠ "__proto__") :
    sumCounts (jsSet obj k p) + countOf (obj.lookup k) = sumCounts obj + countOf (some p) := by
  induction obj with
  | nil =>
    unfold jsSet
    simp [hk, sumCounts, countOf, List.lookup]
  | cons e rest ih =>
    obtain ⟨k0, p0⟩ := e
    unfold jsSet
    by_cases h0 : k0 = k
    · subst h0
      simp only [hk, if_false, if_true, sumCounts, List.map_cons, List.sum_cons, List.lookup,
        beq_self_eq_true]
      omega
    · have hb : (k == k0) = false := by simpa using fun h2 => h0 h2.symm
      simp only [hk, h0, if_false, sumCounts, List.map_cons, List.sum_cons, List.lookup, hb]
      simp only [sumCounts] at ih
      omega

theorem sumCounts_countBet (obj : JSObject) (cnt : String → Nat) (b : String)
    (hb : PlainChoice b) (h : Tallied obj cnt) :
    sumCounts (countBet obj b) = sumCounts obj + 1 := by
  have hne := plainChoice_ne_proto b hb
  have hs := sumCounts_jsSet obj b (plusOne (orZero (jsGet obj b))) hne
  have hl := h b
  unfold countBet
  unfold jsGet at hs ⊢
  by_cases h0 : cnt b = 0
  · simp only [h0, if_true] at hl
    rw [hl] at hs ⊢
    unfold PlainChoice at hb
    simp only [hb, orZero, truthy, plusOne, countOf] at hs ⊢
    simpa using hs
  · simp only [h0, if_false] at hl
    rw [hl] at hs ⊢
    simp only [orZero, truthy, plusOne, countOf, bne_iff_ne, ne_eq, h0, not_false_eq_true,
      if_true] at hs ⊢
    omega

/-- The tally of a list of plain text choices does not raise, counts each choice, and
its counts add up to the number of choices. -/
theorem countBets_plain (vals : List JsonValue) (hv : ∀ v ∈ vals, PlainBet v) :
    ∀ (obj : JSObject) (cnt : String → Nat), Tallied obj cnt →
      ∃ stats, countBets obj vals = Except.ok stats ∧
        Tallied stats (fun c => cnt c + vals.count (JsonValue.str c)) ∧
        sumCounts stats = sumCounts obj + vals.length := by
  induction vals with
  | nil => intro obj cnt h; exact ⟨obj, rfl, by simpa using h, by simp⟩
  | cons v rest ih =>
    intro obj cnt h
    obtain ⟨b, rfl, hb⟩ := hv v (List.mem_cons_self _ _)
    have h1 := tallied_countBet obj cnt b hb h
    obtain ⟨stats, hs, ht, hsum⟩ := ih (fun x hx => hv x (List.mem_cons_of_mem _ hx)) _ _ h1
    refine ⟨stats, ?_, ?_, ?_⟩
    · simp only [countBets, JsonValue.jsToString]
      exact hs
    · intro c
      rw [ht c]
      beta_reduce
      have : cnt c + (if c = b then 1 else 0) + List.count (JsonValue.str c) rest
          = cnt c + List.count (JsonValue.str c) (JsonValue.str b :: rest) := by
        rw [List.count_cons]
        by_cases hcb : c = b
        · subst hcb; simp; omega
        · have : (JsonValue.str b == JsonValue.str c) = false := by
            simpa using fun h => hcb h.symm
          simp [hcb, this]
      rw [this]
    · rw [hsum, sumCounts_countBet obj cnt b hb h, List.length_cons]
      omega

/-- For a ledger whose choices are texts that name no property of `Object.prototype`,
the statistics are computed, hold for each choice the number of entries with that
choice, and no key for a choice nobody bet. -/
theorem betStats_counts (bets : BetMap) (hv : ∀ e ∈ bets, PlainBet e.2) :
    ∃ stats, betStats bets = Except.ok stats ∧
      ∀ c, stats.lookup c =
        if countChoice bets c = 0 then none else some (Prim.num (countChoice bets c)) := by
  obtain ⟨stats, hs, ht, _⟩ := countBets_plain (bets.map Prod.snd)
    (by intro b hb; obtain ⟨e, he, rfl⟩ := List.mem_map.mp hb; exact hv e he)
    [] (fun _ => 0) (by intro c; simp)
  refine ⟨stats, hs, fun c => ?_⟩
  simpa [countChoice] using ht c

/-- For a ledger whose choices are texts that name no property of `Object.prototype`,
the counts of the statistics add up to the size of the ledger. -/
theorem betStats_sum (bets : BetMap) (hv : ∀ e ∈ bets, PlainBet e.2) :
    ∃ stats, betStats bets = Except.ok stats ∧ sumCounts stats = mapSize bets := by
  obtain ⟨stats, hs, _, hsum⟩ := countBets_plain (bets.map Prod.snd)
    (by intro b hb; obtain ⟨e, he, rfl⟩ := List.mem_map.mp hb; exact hv e he)
    [] (fun _ => 0) (by intro c; simp)
  refine ⟨stats, hs, ?_⟩
  simpa [mapSize, sumCounts] using hsum

/-- C3 fails on the code when a choice names a property that the empty object literal
`betStats` starts from inherits from `Object.prototype`. In the run of round 1 where the
only client bets "constructor", the ledger at the end of the round holds one entry with
that choice, yet the `game_end` broadcast at instant 33000 carries a `betStats` whose
value for "constructor" is the text that `Object + 1` evaluates to and not the number 1,
so the counts add up to 0 and not to the size of the ledger. For ledgers whose choices
name no such property the statistics are the counts (`betStats_counts`, `betStats_sum`). -/
theorem betStats_inherited_key :
    (run server0 constructorRun).1.gameState.bets
      = [("10.0.0.1-13000", JsonValue.str "constructor")] ∧
    (run server0 constructorRun).2.getLast? =
      some [Emit.broadcast (Msg.game_end 33000
        [("constructor", Prim.str "function Object() \x7b [native code] \x7d1")])] ∧
    (∃ stats, betStats (run server0 constructorRun).1.gameState.bets = Except.ok stats ∧
      jsGet stats "constructor"
        ≠ JSVal.prim (Prim.num (countChoice (run server0 constructorRun).1.gameState.bets
            "constructor")) ∧
      sumCounts stats = 0) ∧
    mapSize (run server0 constructorRun).1.gameState.bets = 1 := by
  refine ⟨by decide, by decide,
    ⟨[("constructor", Prim.str "function Object() \x7b [native code] \x7d1")],
      by decide, by decide, by decide⟩, by decide⟩

/-! ## Opening a round -/

theorem randomIndex_lt (rnd : Rand) (n : Nat) (h : rnd.num < rnd.den) (hn : 0 < n) :
    randomIndex rnd n < n := by
  unfold randomIndex
  have hden : 0 < rnd.den := by omega
  rw [Nat.div_lt_iff_lt_mul hden, Nat.mul_comm n rnd.den]
  exact Nat.mul_lt_mul_of_pos_right h hn

/-- C5. From every server state, `startNewRound` with a non-empty list of available
media leaves `roundNumber` one higher, the bet ledger empty, `startTime` equal to the
clock reading, `isPlaying` and `bettingOpen` true, the selected entry of the list as
`videoName` (an element of the list when the random draw lies in `[0, 1)`), and
broadcasts one `game_start` carrying that video name, that start time and the new
round number. -/
theorem startNewRound_opens_round (s : Server) (videoFiles : List String) (rnd : Rand)
    (hmedia : videoFiles ≠ []) :
    (startNewRound s videoFiles rnd).1.gameState.roundNumber = s.gameState.roundNumber + 1 ∧
    (startNewRound s videoFiles rnd).1.gameState.bets = [] ∧
    (startNewRound s videoFiles rnd).1.gameState.startTime = some s.now ∧
    (startNewRound s videoFiles rnd).1.gameState.isPlaying = true ∧
    (startNewRound s videoFiles rnd).1.gameState.bettingOpen = true ∧
    (startNewRound s videoFiles rnd).1.gameState.videoName
      = videoFiles[randomIndex rnd videoFiles.length]? ∧
    (rnd.num < rnd.den →
      ∃ v ∈ videoFiles, (startNewRound s videoFiles rnd).1.gameState.videoName = some v) ∧
    (startNewRound s videoFiles rnd).2 =
      [Emit.broadcast (Msg.game_start (startNewRound s videoFiles rnd).1.gameState.videoName
        (some s.now) s.now (s.gameState.roundNumber + 1))] := by
  have hlen : ¬ videoFiles.length = 0 := by
    intro h; exact hmedia (List.length_eq_zero.mp h)
  unfold startNewRound
  rw [if_neg hlen]
  refine ⟨rfl, rfl, rfl, rfl, rfl, rfl, ?_, rfl⟩
  intro hr
  have hlt := randomIndex_lt rnd videoFiles.length hr (by omega)
  exact ⟨videoFiles[randomIndex rnd videoFiles.length], List.getElem_mem _,
    List.getElem?_eq_getElem hlt⟩

/-- Instance of C5: the first round of the sample configuration, started at instant
3000 with the media list `a.mp4`, `b.mp4` and the draw 3/4. -/
theorem startNewRound_opens_round_witness :
    (["a.mp4", "b.mp4"] : List String) ≠ [] ∧
    (startNewRound { server0 with now := 3000, timers := [] } ["a.mp4", "b.mp4"]
        { num := 3, den := 4 }).1.gameState.roundNumber = 1 ∧
    (startNewRound { server0 with now := 3000, timers := [] } ["a.mp4", "b.mp4"]
        { num := 3, den := 4 }).2 =
      [Emit.broadcast (Msg.game_start (some "b.mp4") (some 3000) 3000 1)] :=
  ⟨by decide,
   (startNewRound_opens_round { server0 with now := 3000, timers := [] } ["a.mp4", "b.mp4"]
      { num := 3, den := 4 } (by decide)).1,
   (startNewRound_opens_round { server0 with now := 3000, timers := [] } ["a.mp4", "b.mp4"]
      { num := 3, den := 4 } (by decide)).2.2.2.2.2.2.2.trans (by decide)⟩

/-! ## Connection loss -/

theorem length_mapDelete (m : BetMap) (k : String) (hu : UniqueKeys m)
    (hk : mapGet m k ≠ none) : (mapDelete m k).length + 1 = m.length := by
  induction m with
  | nil => simp [mapGet_nil] at hk
  | cons e rest ih =>
    unfold UniqueKeys at hu
    rw [List.map_cons, List.nodup_cons] at hu
    by_cases h : e.1 = k
    · have h3 : mapDelete (e :: rest) k = mapDelete rest k := by simp [mapDelete, h]
      have habs : mapGet rest k = none := by
        rw [mapGet_eq_none_iff]; rw [← h]; exact hu.1
      rw [h3, mapDelete_of_absent rest k habs]
      rfl
    · have h3 : mapDelete (e :: rest) k = e :: mapDelete rest k := by simp [mapDelete, h]
      rw [mapGet_cons, if_neg h] at hk
      rw [h3, List.length_cons, List.length_cons, ih hu.2 hk]

theorem step_keeps_absent (s : Server) (a : Action) (k : String)
    (h : mapGet s.gameState.bets k = none)
    (hmsg : ∀ ws m c, a = Action.message ws m →
      s.clients.find? (fun x => x.ws = ws) = some c → c.clientId ≠ k) :
    mapGet (step s a).1.gameState.bets k = none := by
  cases a with
  | timer vf rnd =>
    unfold step
    simp only
    split
    · exact h
    · rename_i t _
      unfold runTimer
      split
      · unfold startNewRound
        split
        · exact h
        · rfl
      · exact h
      · unfold endRound
        simp only
        split <;> exact h
      · unfold syncTick
        split <;> exact h
  | elapse ms =>
    unfold step
    simp only
    split <;> exact h
  | connect ws clientIp =>
    unfold step onConnection
    simp only
    split <;> exact h
  | message ws message =>
    unfold step
    simp only
    split
    · exact h
    · rename_i c hc
      have hne := hmsg ws message c rfl hc
      unfold onMessage
      split
      · exact h
      · split
        · split
          · have hset : ∀ v, mapGet (mapSet s.gameState.bets c.clientId v) k = none :=
              fun v => (mapGet_mapSet_other _ _ v _ (Ne.symm hne)).trans h
            split <;> exact hset _
          · exact h
        · split <;> exact h
  | close ws =>
    unfold step
    simp only
    split
    · exact h
    · rename_i c _
      show mapGet (mapDelete s.gameState.bets c.clientId) k = none
      by_cases hk : k = c.clientId
      · rw [hk]; exact mapGet_mapDelete_self _ _
      · rw [mapGet_mapDelete_other _ _ _ hk]; exact h
  | transport ws readyState sendThrows => exact h

/-- C6 as stated fails in two of its clauses. In the first run of round 1 `alice` bets
"red" (turn 12), the betting window closes with `betting_closed` carrying
`totalBets = 1` (turn 21), `alice` closes (turn 22) before the round ends, and
`game_end` (turn 34, the last) carries empty `betStats`: her connection closed before
the round ended and her bet is counted in the `totalBets` of `betting_closed`. In the
second run two sockets connect from the same address at the same instant and get the
same `clientId`; socket 1 bets "red" and socket 2, which never bet, closes: socket 1 is
still in the client set and its bet is gone from the ledger. -/
theorem close_after_betting_closed_counterexample :
    (lateCloseRun[12]? = some (Action.message 1 (some { type := "place_bet", bet := "red" })) ∧
     (run server0 lateCloseRun).2[21]? = some [Emit.broadcast (Msg.betting_closed 22000 1)] ∧
     lateCloseRun[22]? = some (Action.close 1) ∧
     (run server0 lateCloseRun).2[34]? = some [Emit.broadcast (Msg.game_end 33000 [])] ∧
     lateCloseRun.length = 35) ∧
    ((run server0 sharedIdRun).1.clients
        = [newClient 13000 1 "10.0.0.1", newClient 13000 2 "10.0.0.1"] ∧
     (newClient 13000 1 "10.0.0.1").ws ≠ (newClient 13000 2 "10.0.0.1").ws ∧
     (newClient 13000 1 "10.0.0.1").clientId = (newClient 13000 2 "10.0.0.1").clientId ∧
     mapGet (run server0 sharedIdRun).1.gameState.bets (newClient 13000 1 "10.0.0.1").clientId
        = some (JsonValue.str "red") ∧
     (step (run server0 sharedIdRun).1 (Action.close 2)).1.clients
        = [newClient 13000 1 "10.0.0.1"] ∧
     mapGet (step (run server0 sharedIdRun).1 (Action.close 2)).1.gameState.bets
        (newClient 13000 1 "10.0.0.1").clientId = none) := by
  decide

/-- C6 as amended. Handling the close of a connection removes its socket from the
client set and keeps every other socket; removes the ledger entry under its `clientId`
and keeps the bet of every other connection whose `clientId` differs from its own (the
entry under every other `clientId`); leaves the ledger as it is when the connection had
no bet; emits nothing. Consequently a `betting_closed` or a `game_end` produced after
the close does not count that bet: produced from the state after the close,
`totalBets` is the size of the ledger without the entry (one less than before when the
connection had a bet) and the `betStats` of `game_end` is the tally of the ledger
without the entry; and the entry stays absent through every later turn that is not a
message from a socket registered under the same `clientId`. -/
theorem close_drops_own_bet (s : Server) (c : Client) :
    (∀ x, x ∈ (onClose s c).1.clients ↔ x ∈ s.clients ∧ x.ws ≠ c.ws) ∧
    mapGet (onClose s c).1.gameState.bets c.clientId = none ∧
    (∀ x ∈ s.clients, x.clientId ≠ c.clientId →
      mapGet (onClose s c).1.gameState.bets x.clientId = mapGet s.gameState.bets x.clientId) ∧
    (∀ k, k ≠ c.clientId →
      mapGet (onClose s c).1.gameState.bets k = mapGet s.gameState.bets k) ∧
    (mapGet s.gameState.bets c.clientId = none →
      (onClose s c).1.gameState.bets = s.gameState.bets) ∧
    (onClose s c).2 = [] ∧
    (closeBetting (onClose s c).1).2 =
      [Emit.broadcast (Msg.betting_closed s.now
        (mapSize (s.gameState.bets.filter (fun e => e.1 ≠ c.clientId))))] ∧
    (UniqueKeys s.gameState.bets → mapGet s.gameState.bets c.clientId ≠ none →
      mapSize (onClose s c).1.gameState.bets + 1 = mapSize s.gameState.bets) ∧
    (∀ stats, betStats (s.gameState.bets.filter (fun e => e.1 ≠ c.clientId)) = Except.ok stats →
      (endRound (onClose s c).1).2 = [Emit.broadcast (Msg.game_end s.now stats)]) ∧
    (∀ ch, countChoice (onClose s c).1.gameState.bets ch =
      ((s.gameState.bets.filter (fun e => e.1 ≠ c.clientId)).map Prod.snd).count
        (JsonValue.str ch)) ∧
    (∀ (s' : Server) (a : Action), mapGet s'.gameState.bets c.clientId = none →
      (∀ ws m x, a = Action.message ws m →
        s'.clients.find? (fun y => y.ws = ws) = some x → x.clientId ≠ c.clientId) →
      mapGet (step s' a).1.gameState.bets c.clientId = none) := by
  refine ⟨?_, mapGet_mapDelete_self _ _, fun x _ hk => mapGet_mapDelete_other _ _ _ hk,
    fun k hk => mapGet_mapDelete_other _ _ _ hk,
    fun h => mapDelete_of_absent _ _ h, rfl, rfl, ?_, ?_, fun _ => rfl,
    fun s' a h hm => step_keeps_absent s' a c.clientId h hm⟩
  · intro x
    simp [onClose, setDelete, List.mem_filter]
  · intro hu hk
    exact length_mapDelete _ _ hu hk
  · intro stats hstats
    have hb : betStats (onClose s c).1.gameState.bets = Except.ok stats := hstats
    simp only [endRound, hb]
    rfl

/-- Instance of C6 as amended, the scenario of the specification: with the bets "red"
of `alice` and "blue" of `bob` recorded, `bob` disconnects before betting closes; the
bet of `alice` stays, a `betting_closed` produced from the state after the close
carries `totalBets = 1` and a `game_end` carries `betStats` with "red" counted once and
no "blue"; and in the run of the whole round the `betting_closed` of instant 22000 and
the `game_end` of instant 33000 carry exactly these. -/
theorem close_drops_own_bet_witness :
    twoBets.gameState.bets
      = [("10.0.0.1-13000", JsonValue.str "red"), ("10.0.0.2-13000", JsonValue.str "blue")] ∧
    alice ∈ twoBets.clients ∧ alice.clientId ≠ bob.clientId ∧
    mapGet (onClose twoBets bob).1.gameState.bets alice.clientId = some (JsonValue.str "red") ∧
    (onClose twoBets bob).1.gameState.bets = [("10.0.0.1-13000", JsonValue.str "red")] ∧
    (closeBetting (onClose twoBets bob).1).2
      = [Emit.broadcast (Msg.betting_closed 13000 1)] ∧
    (endRound (onClose twoBets bob).1).2
      = [Emit.broadcast (Msg.game_end 13000 [("red", Prim.num 1)])] ∧
    (run server0 earlyCloseRun).2[24]? = some [Emit.broadcast (Msg.betting_closed 22000 1)] ∧
    (run server0 earlyCloseRun).2[36]?
      = some [Emit.broadcast (Msg.game_end 33000 [("red", Prim.num 1)])] :=
  ⟨by decide, by decide, by decide,
   ((close_drops_own_bet twoBets bob).2.2.1 alice (by decide) (by decide)).trans (by decide),
   by decide,
   (close_drops_own_bet twoBets bob).2.2.2.2.2.2.1.trans (by decide),
   (close_drops_own_bet twoBets bob).2.2.2.2.2.2.2.2.1 [("red", Prim.num 1)] (by decide),
   by decide, by decide⟩

/-! ## Reconnect back-off -/

theorem onclose_retry (b : App) (h : b.reconnectAttempts < b.maxReconnectAttempts) :
    (onclose b).2 = some (min (1000 * 2 ^ (b.reconnectAttempts + 1)) 10000) ∧
    (onclose b).1.reconnectAttempts = b.reconnectAttempts + 1 ∧
    (onclose b).1.maxReconnectAttempts = b.maxReconnectAttempts := by
  unfold onclose
  simp only [h, if_true, and_self]

theorem onclose_exhausted (b : App) (h : ¬ b.reconnectAttempts < b.maxReconnectAttempts) :
    (onclose b).2 = none ∧
    (onclose b).1.reconnectAttempts = b.reconnectAttempts ∧
    (onclose b).1.maxReconnectAttempts = b.maxReconnectAttempts := by
  unfold onclose
  simp only [h, if_false, and_self]

theorem onclose_at (b : App) (n : Nat) (hm : b.maxReconnectAttempts = 5)
    (hn : b.reconnectAttempts = n) (hlt : n < 5) :
    (onclose b).2 = some (min (1000 * 2 ^ (n + 1)) 10000) ∧
    (onclose b).1.reconnectAttempts = n + 1 ∧ (onclose b).1.maxReconnectAttempts = 5 := by
  have h := onclose_retry b (by omega)
  rw [hn, hm] at h
  exact h

/-- C7. Starting from `reconnectAttempts = 0` with the maximum of 5 attempts, the
delays scheduled by six consecutive transport losses with no open in between are 2000,
4000, 8000, 10000, 10000 ms and then none; the counter is 5 after the fifth loss and
stays 5 after the sixth; and whenever a reconnection is scheduled its delay is
`min(1000 * 2^attempt, 10000)` for the incremented attempt counter. -/
theorem reconnect_backoff (a : App) (h0 : a.reconnectAttempts = 0)
    (hmax : a.maxReconnectAttempts = 5) :
    lossDelays 6 a = [some 2000, some 4000, some 8000, some 10000, some 10000, none] ∧
    (afterLosses 5 a).reconnectAttempts = 5 ∧
    (afterLosses 6 a).reconnectAttempts = 5 ∧
    (∀ b : App, b.reconnectAttempts < b.maxReconnectAttempts →
      (onclose b).2 = some (min (1000 * 2 ^ (b.reconnectAttempts + 1)) 10000) ∧
      (onclose b).1.reconnectAttempts = b.reconnectAttempts + 1) ∧
    (∀ b : App, ¬ b.reconnectAttempts < b.maxReconnectAttempts →
      (onclose b).2 = none ∧ (onclose b).1.reconnectAttempts = b.reconnectAttempts) := by
  obtain ⟨d1, n1, m1⟩ := onclose_at a 0 hmax h0 (by omega)
  obtain ⟨d2, n2, m2⟩ := onclose_at (onclose a).1 1 m1 n1 (by omega)
  obtain ⟨d3, n3, m3⟩ := onclose_at (onclose (onclose a).1).1 2 m2 n2 (by omega)
  obtain ⟨d4, n4, m4⟩ := onclose_at (onclose (onclose (onclose a).1).1).1 3 m3 n3 (by omega)
  obtain ⟨d5, n5, m5⟩ :=
    onclose_at (onclose (onclose (onclose (onclose a).1).1).1).1 4 m4 n4 (by omega)
  obtain ⟨d6, n6, _⟩ :=
    onclose_exhausted (onclose (onclose (onclose (onclose (onclose a).1).1).1).1).1
      (by omega)
  have e5 : afterLosses 5 a = (onclose (onclose (onclose (onclose (onclose a).1).1).1).1).1 := by
    simp only [afterLosses]
  have e6 : afterLosses 6 a
      = (onclose (onclose (onclose (onclose (onclose (onclose a).1).1).1).1).1).1 := by
    simp only [afterLosses]
  refine ⟨?_, ?_, ?_, ?_, ?_⟩
  · simp only [lossDelays]
    rw [d1, d2, d3, d4, d5, d6]
    norm_num
  · rw [e5, n5]
  · rw [e6, n6, n5]
  · intro b hb
    exact ⟨(onclose_retry b hb).1, (onclose_retry b hb).2.1⟩
  · intro b hb
    exact ⟨(onclose_exhausted b hb).1, (onclose_exhausted b hb).2.1⟩

/-- Instance of C7 on the page as loaded. -/
theorem reconnect_backoff_witness :
    initialApp.reconnectAttempts = 0 ∧ initialApp.maxReconnectAttempts = 5 ∧
    lossDelays 6 initialApp
      = [some 2000, some 4000, some 8000, some 10000, some 10000, none] ∧
    (afterLosses 6 initialApp).reconnectAttempts = 5 :=
  ⟨rfl, rfl, (reconnect_backoff initialApp rfl rfl).1, (reconnect_backoff initialApp rfl rfl).2.2.1⟩

/-! ## Registration of a connection -/

/-- C9. A connection registered at clock reading `now`: while a round is playing the
handler sends to it exactly one message, the `game_sync` whose `elapsed` is
`now - startTime` and whose `videoName`, `startTime`, `bettingOpen` and `roundNumber` are
those of the game state; while no round is playing it sends exactly one `waiting`
notice (hence no `game_sync`). In both cases the game state, the timers and the clock
are unchanged and the client set gains the new socket only. -/
theorem connection_snapshot (s : Server) (ws : Nat) (clientIp : String) :
    (s.gameState.isPlaying = true →
      (onConnection s ws clientIp).2 =
        [Emit.send ws (Msg.game_sync s.gameState.videoName s.gameState.startTime
          (elapsedSince s.now s.gameState.startTime) s.gameState.bettingOpen s.now
          s.gameState.roundNumber)]) ∧
    (∀ t, s.gameState.startTime = some t →
      elapsedSince s.now s.gameState.startTime = (s.now : Int) - (t : Int)) ∧
    (s.gameState.isPlaying = false →
      (onConnection s ws clientIp).2 = [Emit.send ws (Msg.waiting s.now)]) ∧
    (onConnection s ws clientIp).1.gameState = s.gameState ∧
    (onConnection s ws clientIp).1.timers = s.timers ∧
    (onConnection s ws clientIp).1.now = s.now ∧
    (onConnection s ws clientIp).1.clients = setAdd s.clients (newClient s.now ws clientIp) ∧
    (∀ x ∈ s.clients, x ∈ (onConnection s ws clientIp).1.clients) := by
  refine ⟨?_, ?_, ?_, ?_, ?_, ?_, ?_, ?_⟩
  · intro h; simp [onConnection, h]
  · intro t ht; simp [elapsedSince, ht]
  · intro h; simp [onConnection, h]
  · unfold onConnection; split <;> rfl
  · unfold onConnection; split <;> rfl
  · unfold onConnection; split <;> rfl
  · unfold onConnection; split <;> rfl
  · intro x hx
    have : (onConnection s ws clientIp).1.clients = setAdd s.clients (newClient s.now ws clientIp) := by
      unfold onConnection; split <;> rfl
    rw [this]
    unfold setAdd
    split
    · exact hx
    · exact List.mem_append_left _ hx

/-! ## Fan-out -/

theorem broadcast_foldlM (data : Msg) (clients : List Client) (acc : BroadcastRun) :
    clients.foldlM (broadcastEach data) acc = Except.ok
      { delivered := acc.delivered ++
          (clients.filter (fun c => c.readyState = OPEN ∧ c.sendThrows = false)).map Client.ws
        successCount := acc.successCount +
          (clients.filter (fun c => c.readyState = OPEN ∧ c.sendThrows = false)).length
        logged := acc.logged +
          (clients.filter (fun c => c.readyState = OPEN ∧ c.sendThrows = true)).length } := by
  induction clients generalizing acc with
  | nil => simp [pure, Except.pure]
  | cons c rest ih =>
    rw [List.foldlM_cons]
    by_cases ho : c.readyState = OPEN
    · cases ht : c.sendThrows
      · have : broadcastEach data acc c = Except.ok
            { acc with delivered := acc.delivered ++ [c.ws],
                       successCount := acc.successCount + 1 } := by
          simp [broadcastEach, ho, Client.send, ht]
        rw [this]
        show (List.foldlM (broadcastEach data) _ rest) = _
        rw [ih]
        simp [ho, ht, List.filter_cons]
        omega
      · have : broadcastEach data acc c = Except.ok { acc with logged := acc.logged + 1 } := by
          simp [broadcastEach, ho, Client.send, ht]
        rw [this]
        show (List.foldlM (broadcastEach data) _ rest) = _
        rw [ih]
        simp [ho, ht, List.filter_cons]
        omega
    · have : broadcastEach data acc c = Except.ok acc := by
        simp [broadcastEach, ho]
      rw [this]
      show (List.foldlM (broadcastEach data) _ rest) = _
      rw [ih]
      simp [ho, List.filter_cons]

/-- C10. For every client set and every event, `broadcast` returns normally (no
exception leaves the call), and the sockets on which the event was delivered are
exactly the registered sockets whose transport is open and whose `send` does not throw,
in iteration order, whatever the number and the positions of the sockets whose `send`
throws; each of those is caught and logged once. -/
theorem broadcast_isolates_failures (clients : List Client) (data : Msg) :
    ∃ r : BroadcastRun, broadcast clients data = Except.ok r ∧
      r.delivered =
        (clients.filter (fun c => c.readyState = OPEN ∧ c.sendThrows = false)).map Client.ws ∧
      (∀ c ∈ clients, c.readyState = OPEN → c.sendThrows = false → c.ws ∈ r.delivered) ∧
      r.successCount = r.delivered.length ∧
      r.logged =
        (clients.filter (fun c => c.readyState = OPEN ∧ c.sendThrows = true)).length := by
  refine ⟨_, broadcast_foldlM data clients _, ?_, ?_, ?_, ?_⟩
  · simp
  · intro c hc ho ht
    simp only [List.nil_append, List.mem_map, List.mem_filter]
    exact ⟨c, ⟨hc, by simp [ho, ht]⟩, rfl⟩
  · simp
  · simp

/-! ## Drift check -/

/-- The two bounds of the drift check as binary64 values. -/
theorem sync_bounds :
    MAX_SYNC_DIFF = { mant := 1, expo := -1 } ∧ Dbl.ofRatio 5 1 = { mant := 5, expo := 0 } := by
  decide

/-- The drift check with its guard passed, in terms of the clock-derived time and the
drift. -/
theorem syncCheck_playing (a : App) (now start : Nat)
    (hstart : a.gameStartTime = some start) (hpos : start ≠ 0)
    (hplay : a.videoPlayer.paused = false) :
    syncCheck a now =
      if Dbl.lt { mant := 1, expo := -1 }
            (Dbl.abs (Dbl.sub (Dbl.ofRatio ((now : Int) - (start : Int)) 1000)
              a.videoPlayer.currentTime)) ∧
          Dbl.lt (Dbl.abs (Dbl.sub (Dbl.ofRatio ((now : Int) - (start : Int)) 1000)
              a.videoPlayer.currentTime)) { mant := 5, expo := 0 } then
        ({ a with videoPlayer :=
            { a.videoPlayer with
              currentTime := Dbl.ofRatio ((now : Int) - (start : Int)) 1000 } },
         [AppEffect.seek (Dbl.ofRatio ((now : Int) - (start : Int)) 1000)])
      else (a, []) := by
  have hguard : (!startTimeKnown a.gameStartTime || a.videoPlayer.paused) = false := by
    simp [startTimeKnown, hstart, hpos, hplay]
  have he : serverElapsed now a.gameStartTime
      = Dbl.ofRatio ((now : Int) - (start : Int)) 1000 := by
    simp [serverElapsed, hstart]
  unfold syncCheck
  rw [hguard]
  simp only [Bool.false_eq_true, if_false, drift, he, sync_bounds.1, sync_bounds.2]

/-- C8. A run of the drift check while playback is active and a start time is known
(the guard of app.js 291 does not return). With `elapsed` the binary64 quotient
`(now - gameStartTime) / 1000` and `diff` the binary64 value
`|elapsed - videoPlayer.currentTime|`: when `0.5 < diff < 5` the check writes `elapsed`
to the player position, and that seek is its only effect; otherwise it leaves the whole
client state unchanged and has no effect. So a seek happens if and only if
`0.5 < diff < 5`, and then to `elapsed`. -/
theorem syncCheck_seek_iff (a : App) (now start : Nat) (elapsed diff : Dbl)
    (hstart : a.gameStartTime = some start) (hpos : start ≠ 0)
    (hplay : a.videoPlayer.paused = false)
    (helapsed : elapsed = Dbl.ofRatio ((now : Int) - (start : Int)) 1000)
    (hdiff : diff = Dbl.abs (Dbl.sub elapsed a.videoPlayer.currentTime)) :
    ((Dbl.lt { mant := 1, expo := -1 } diff ∧ Dbl.lt diff { mant := 5, expo := 0 }) →
      (syncCheck a now).1 =
        { a with videoPlayer := { a.videoPlayer with currentTime := elapsed } } ∧
      (syncCheck a now).2 = [AppEffect.seek elapsed]) ∧
    (¬ (Dbl.lt { mant := 1, expo := -1 } diff ∧ Dbl.lt diff { mant := 5, expo := 0 }) →
      (syncCheck a now).1 = a ∧ (syncCheck a now).2 = []) ∧
    (∀ p, AppEffect.seek p ∈ (syncCheck a now).2 ↔
      (Dbl.lt { mant := 1, expo := -1 } diff ∧ Dbl.lt diff { mant := 5, expo := 0 }) ∧
        p = elapsed) := by
  have h := syncCheck_playing a now start hstart hpos hplay
  rw [← helapsed, ← hdiff] at h
  by_cases hr : Dbl.lt { mant := 1, expo := -1 } diff ∧ Dbl.lt diff { mant := 5, expo := 0 }
  · rw [if_pos hr] at h
    rw [h]
    refine ⟨fun _ => ⟨rfl, rfl⟩, fun hn => absurd hr hn, ?_⟩
    intro p
    constructor
    · intro hp
      exact ⟨hr, by simpa using hp⟩
    · intro hp
      simp [hp.2]
  · rw [if_neg hr] at h
    rw [h]
    refine ⟨fun hy => absurd hy hr, fun _ => ⟨rfl, rfl⟩, ?_⟩
    intro p
    constructor
    · intro hp
      simp at hp
    · intro hp
      exact absurd hp.1 hr

/-- Instance of C8 for a round started at instant 1000. At instant 11000 (`elapsed` is
10): position 9.6 (drift 0.4 up to rounding) gives no seek, position 8.8 (drift 1.2)
gives a seek to 10, position 4 (drift 6) gives no seek. At instant 14500 position 12
(drift 1.5) gives a seek to 13.5. At the bounds: at instant 2200 the position 0.7 has
drift exactly 0.5 in binary64 and gives no seek, at instant 6200 the position 0.2 has
drift exactly 5 and gives no seek. -/
theorem syncCheck_seek_iff_witness :
    (playingAt (Dbl.ofRatio 44 5)).gameStartTime = some 1000 ∧
    (playingAt (Dbl.ofRatio 44 5)).videoPlayer.paused = false ∧
    Dbl.ofRatio 48 5 = { mant := 5404319552844595, expo := -49 } ∧
    Dbl.abs (Dbl.sub { mant := 5, expo := 1 } (Dbl.ofRatio 48 5))
      = { mant := 225179981368525, expo := -49 } ∧
    (syncCheck (playingAt (Dbl.ofRatio 48 5)) 11000).2 = [] ∧
    (syncCheck (playingAt (Dbl.ofRatio 44 5)) 11000).2
      = [AppEffect.seek { mant := 5, expo := 1 }] ∧
    (syncCheck (playingAt (Dbl.ofRatio 44 5)) 11000).1
      = playingAt { mant := 5, expo := 1 } ∧
    (syncCheck (playingAt (Dbl.ofRatio 4 1)) 11000) = (playingAt { mant := 1, expo := 2 }, []) ∧
    (syncCheck (playingAt (Dbl.ofRatio 12 1)) 14500).2
      = [AppEffect.seek { mant := 27, expo := -1 }] ∧
    Dbl.ofRatio 7 10 = { mant := 3152519739159347, expo := -52 } ∧
    Dbl.abs (Dbl.sub (Dbl.ofRatio 1200 1000) (Dbl.ofRatio 7 10)) = { mant := 1, expo := -1 } ∧
    (syncCheck (playingAt (Dbl.ofRatio 7 10)) 2200).2 = [] ∧
    Dbl.abs (Dbl.sub (Dbl.ofRatio 5200 1000) (Dbl.ofRatio 2 10)) = { mant := 5, expo := 0 } ∧
    (syncCheck (playingAt (Dbl.ofRatio 2 10)) 6200).2 = [] :=
  ⟨rfl, rfl, by decide, by decide,
   ((syncCheck_seek_iff (playingAt (Dbl.ofRatio 48 5)) 11000 1000 _ _ rfl (by decide) rfl
      rfl rfl).2.1 (by decide)).2,
   ((syncCheck_seek_iff (playingAt (Dbl.ofRatio 44 5)) 11000 1000 _ _ rfl (by decide) rfl
      rfl rfl).1 (by decide)).2.trans (by decide),
   ((syncCheck_seek_iff (playingAt (Dbl.ofRatio 44 5)) 11000 1000 _ _ rfl (by decide) rfl
      rfl rfl).1 (by decide)).1.trans (by decide),
   Prod.ext_iff.mpr
     (((syncCheck_seek_iff (playingAt (Dbl.ofRatio 4 1)) 11000 1000 _ _ rfl (by decide) rfl
        rfl rfl).2.1 (by decide)).imp (fun h => h.trans (by decide)) id),
   ((syncCheck_seek_iff (playingAt (Dbl.ofRatio 12 1)) 14500 1000 _ _ rfl (by decide) rfl
      rfl rfl).1 (by decide)).2.trans (by decide),
   by decide, by decide,
   ((syncCheck_seek_iff (playingAt (Dbl.ofRatio 7 10)) 2200 1000 _ _ rfl (by decide) rfl
      rfl rfl).2.1 (by decide)).2,
   by decide,
   ((syncCheck_seek_iff (playingAt (Dbl.ofRatio 2 10)) 6200 1000 _ _ rfl (by decide) rfl
      rfl rfl).2.1 (by decide)).2⟩

/-! ## Order of the round lifecycle -/

theorem before_trans {t u v : Timer} (h1 : t.before u) (h2 : u.before v) : t.before v := by
  unfold Timer.before at *
  omega

theorem nextTimer_spec (l : List Timer) (m : Timer) (h : nextTimer l = some m) :
    m ∈ l ∧ ∀ u ∈ l, ¬ u.before m := by
  induction l generalizing m with
  | nil => simp [nextTimer] at h
  | cons t rest ih =>
    unfold nextTimer at h
    cases hr : nextTimer rest with
    | none =>
      rw [hr] at h
      simp only [Option.some.injEq] at h
      subst h
      have hnil : rest = [] := by
        cases rest with
        | nil => rfl
        | cons x xs =>
          unfold nextTimer at hr
          cases hx : nextTimer xs <;> rw [hx] at hr <;> simp at hr
          split at hr <;> simp at hr
      subst hnil
      refine ⟨List.mem_singleton.mpr rfl, ?_⟩
      intro u hu
      rw [List.mem_singleton] at hu
      subst hu
      unfold Timer.before
      omega
    | some u =>
      rw [hr] at h
      obtain ⟨hu, hmin⟩ := ih u hr
      simp only at h
      split at h
      · rename_i hb
        simp only [Option.some.injEq] at h
        subst h
        refine ⟨List.mem_cons_self _ _, ?_⟩
        intro x hx
        rw [List.mem_cons] at hx
        rcases hx with rfl | hx
        · unfold Timer.before; omega
        · intro hxt
          exact hmin x hx (before_trans hxt hb)
      · rename_i hb
        simp only [Option.some.injEq] at h
        subst h
        refine ⟨List.mem_cons_of_mem _ hu, ?_⟩
        intro x hx
        rw [List.mem_cons] at hx
        rcases hx with rfl | hx
        · exact hb
        · exact hmin x hx

theorem nextTimer_ne_none (l : List Timer) (t : Timer) (h : t ∈ l) : nextTimer l ≠ none := by
  cases l with
  | nil => simp at h
  | cons x xs =>
    unfold nextTimer
    cases nextTimer xs with
    | none => simp
    | some u => simp only; split <;> simp

theorem timerDelay_le (a b : Nat) (h : a ≤ b) (hb : b ≤ TIMEOUT_MAX) :
    timerDelay a ≤ timerDelay b := by
  unfold timerDelay
  split <;> split <;> omega

theorem timerDelay_of_range (d : Nat) (h1 : 1 ≤ d) (h2 : d ≤ TIMEOUT_MAX) :
    timerDelay d = d := by
  unfold timerDelay
  rw [if_pos ⟨h1, h2⟩]

theorem lifecycleTimers_setTimeout (s : Server) (kind : TimerKind) (delay : Nat) :
    lifecycleTimers (setTimeout s kind delay) =
      lifecycleTimers s ++
        (if isLifecycleTimer
            { id := s.nextTimerId, due := s.now + timerDelay delay, kind := kind }
         then [{ id := s.nextTimerId, due := s.now + timerDelay delay, kind := kind }]
         else []) := by
  unfold lifecycleTimers setTimeout
  simp only [List.filter_append, List.filter_cons, List.filter_nil]

theorem gameState_setTimeout (s : Server) (kind : TimerKind) (delay : Nat) :
    (setTimeout s kind delay).gameState = s.gameState := rfl

theorem now_setTimeout (s : Server) (kind : TimerKind) (delay : Nat) :
    (setTimeout s kind delay).now = s.now := rfl

theorem nextTimerId_setTimeout (s : Server) (kind : TimerKind) (delay : Nat) :
    (setTimeout s kind delay).nextTimerId = s.nextTimerId + 1 := rfl

theorem lifecycleTimers_erase (s : Server) (t : Timer) (now : Nat) :
    lifecycleTimers { s with timers := s.timers.erase t, now := now } =
      (lifecycleTimers s).erase t := by
  unfold lifecycleTimers
  exact (List.erase_filter _ _).symm

theorem mem_lifecycleTimers (s : Server) (t : Timer) (h : t ∈ s.timers)
    (hl : isLifecycleTimer t = true) : t ∈ lifecycleTimers s := by
  unfold lifecycleTimers
  exact List.mem_filter.mpr ⟨h, hl⟩

theorem erase_of_not_lifecycle (s : Server) (t : Timer) (hl : isLifecycleTimer t = false) :
    (lifecycleTimers s).erase t = lifecycleTimers s := by
  apply List.erase_of_not_mem
  intro hmem
  unfold lifecycleTimers at hmem
  have := (List.mem_filter.mp hmem).2
  rw [hl] at this
  exact Bool.false_ne_true this

theorem startNewRound_noMedia (s : Server) (videoFiles : List String) (rnd : Rand)
    (hv : videoFiles.length = 0) :
    startNewRound s videoFiles rnd = (setTimeout s TimerKind.startNewRound 5000, []) := by
  unfold startNewRound
  rw [if_pos hv]

theorem startNewRound_media (s : Server) (videoFiles : List String) (rnd : Rand)
    (hv : ¬ videoFiles.length = 0) :
    lifecycleTimers (startNewRound s videoFiles rnd).1 =
      lifecycleTimers s ++
        [{ id := s.nextTimerId, due := s.now + timerDelay s.gameState.bettingDuration,
           kind := TimerKind.closeBetting },
         { id := s.nextTimerId + 1, due := s.now + timerDelay s.gameState.roundDuration,
           kind := TimerKind.endRound }] ∧
    (startNewRound s videoFiles rnd).1.gameState.isPlaying = true ∧
    (startNewRound s videoFiles rnd).1.gameState.bettingOpen = true ∧
    (startNewRound s videoFiles rnd).1.gameState.roundNumber = s.gameState.roundNumber + 1 ∧
    (startNewRound s videoFiles rnd).1.gameState.bettingDuration
      = s.gameState.bettingDuration ∧
    (startNewRound s videoFiles rnd).1.gameState.roundDuration = s.gameState.roundDuration ∧
    (startNewRound s videoFiles rnd).2.filterMap lifecycleOf
      = [Lifecycle.game_start (s.gameState.roundNumber + 1)] := by
  unfold startNewRound
  rw [if_neg hv]
  refine ⟨?_, rfl, rfl, rfl, rfl, rfl, rfl⟩
  simp only [lifecycleTimers_setTimeout, isLifecycleTimer, if_true, now_setTimeout,
    nextTimerId_setTimeout, gameState_setTimeout]
  simp [lifecycleTimers]

theorem endRound_ok (s : Server) (stats : JSObject)
    (h : betStats s.gameState.bets = Except.ok stats) :
    endRound s =
      (setTimeout { s with gameState := { s.gameState with isPlaying := false } }
        TimerKind.startNewRound s.ROUND_GAP,
       [Emit.broadcast (Msg.game_end s.now stats)]) := by
  have hb : betStats ({ s.gameState with isPlaying := false } : GameState).bets
      = Except.ok stats := h
  simp only [endRound, hb]

theorem endRound_error (s : Server) (e : String)
    (h : betStats s.gameState.bets = Except.error e) :
    endRound s = ({ s with gameState := { s.gameState with isPlaying := false } }, []) := by
  have hb : betStats ({ s.gameState with isPlaying := false } : GameState).bets
      = Except.error e := h
  simp only [endRound, hb]

theorem countBets_text (vals : List JsonValue)
    (hv : ∀ v ∈ vals, ∃ text, v.jsToString = Except.ok text) :
    ∀ obj : JSObject, ∃ stats, countBets obj vals = Except.ok stats := by
  induction vals with
  | nil => intro obj; exact ⟨obj, rfl⟩
  | cons v rest ih =>
    intro obj
    obtain ⟨text, ht⟩ := hv v (List.mem_cons_self _ _)
    obtain ⟨stats, hs⟩ := ih (fun x hx => hv x (List.mem_cons_of_mem _ hx)) (countBet obj text)
    refine ⟨stats, ?_⟩
    simp only [countBets, ht]
    exact hs

/-- The tally of a ledger whose bets all convert to text does not raise. -/
theorem betStats_of_textLedger (s : Server) (h : TextLedger s) :
    ∃ stats, betStats s.gameState.bets = Except.ok stats := by
  unfold betStats
  apply countBets_text
  intro v hv
  obtain ⟨e, he, rfl⟩ := List.mem_map.mp hv
  exact h e he

theorem lifecycleTimers_endRound (s : Server) (stats : JSObject)
    (h : betStats s.gameState.bets = Except.ok stats) :
    lifecycleTimers (endRound s).1 =
      lifecycleTimers s ++
        [{ id := s.nextTimerId, due := s.now + timerDelay s.ROUND_GAP,
           kind := TimerKind.startNewRound }] := by
  rw [endRound_ok s stats h]
  simp only [lifecycleTimers_setTimeout, isLifecycleTimer, if_true]
  simp [lifecycleTimers]

theorem lifecycleTimers_syncTick (s : Server) (round : Nat) :
    lifecycleTimers (syncTick s round).1 = lifecycleTimers s ∧
    (syncTick s round).1.gameState = s.gameState ∧
    (syncTick s round).2.filterMap lifecycleOf = [] := by
  unfold syncTick
  split
  · exact ⟨rfl, rfl, rfl⟩
  · refine ⟨?_, rfl, rfl⟩
    simp [lifecycleTimers_setTimeout, isLifecycleTimer]

theorem phase_eq_ended (g : GameState) : phase g = Phase.ended ↔ g.isPlaying = false := by
  unfold phase
  cases g.isPlaying <;> cases g.bettingOpen <;> simp

theorem phase_eq_bettingOpen (g : GameState) :
    phase g = Phase.bettingOpen ↔ g.isPlaying = true ∧ g.bettingOpen = true := by
  unfold phase
  cases g.isPlaying <;> cases g.bettingOpen <;> simp

theorem phase_eq_bettingClosed (g : GameState) :
    phase g = Phase.bettingClosed ↔ g.isPlaying = true ∧ g.bettingOpen = false := by
  unfold phase
  cases g.isPlaying <;> cases g.bettingOpen <;> simp

/-- Firing the timer `t` that the event loop selected in a state with the expected
pending timers: the expected pending timers again, and one lifecycle step. -/
theorem runTimer_scheduled (s : Server) (t : Timer) (videoFiles : List String) (rnd : Rand)
    (hd : s.gameState.bettingDuration ≤ s.gameState.roundDuration)
    (hr : s.gameState.roundDuration ≤ TIMEOUT_MAX)
    (h : Pending s) (hnt : nextTimer s.timers = some t) :
    Pending (runTimer { s with timers := s.timers.erase t, now := max s.now t.due } t
      videoFiles rnd).1 ∧
    (LifecycleStep s
      (runTimer { s with timers := s.timers.erase t, now := max s.now t.due } t
        videoFiles rnd).2
      (runTimer { s with timers := s.timers.erase t, now := max s.now t.due } t
        videoFiles rnd).1 ∨
     SilentEnd s
      (runTimer { s with timers := s.timers.erase t, now := max s.now t.due } t
        videoFiles rnd).2
      (runTimer { s with timers := s.timers.erase t, now := max s.now t.due } t
        videoFiles rnd).1) ∧
    (runTimer { s with timers := s.timers.erase t, now := max s.now t.due } t
      videoFiles rnd).1.gameState.bettingDuration = s.gameState.bettingDuration ∧
    (runTimer { s with timers := s.timers.erase t, now := max s.now t.due } t
      videoFiles rnd).1.gameState.roundDuration = s.gameState.roundDuration := by
  obtain ⟨hmem, hmin⟩ := nextTimer_spec _ _ hnt
  have herase := lifecycleTimers_erase s t (max s.now t.due)
  generalize hs1 : ({ s with timers := s.timers.erase t, now := max s.now t.due } : Server) = s1
    at herase ⊢
  have hg : s1.gameState = s.gameState := by rw [← hs1]
  unfold runTimer
  cases hk : t.kind with
  | startNewRound =>
    have hl : isLifecycleTimer t = true := by simp [isLifecycleTimer, hk]
    have hin := mem_lifecycleTimers s t hmem hl
    simp only
    unfold Pending at h
    cases hp : phase s.gameState with
    | ended =>
      rw [hp] at h
      rcases h with hnil | ⟨t0, hl0, _⟩
      · rw [hnil] at hin; cases hin
      rw [hl0, List.mem_singleton] at hin
      subst hin
      rw [hl0, List.erase_cons_head] at herase
      by_cases hv : videoFiles.length = 0
      · rw [startNewRound_noMedia _ _ _ hv]
        refine ⟨?_, ?_, ?_, ?_⟩
        · unfold Pending
          rw [gameState_setTimeout, hg, hp]
          exact Or.inr ⟨Timer.mk s1.nextTimerId (s1.now + timerDelay 5000)
              TimerKind.startNewRound,
            by rw [lifecycleTimers_setTimeout, herase]; simp [isLifecycleTimer], rfl⟩
        · apply Or.inl
          left
          rw [gameState_setTimeout, hg]
          exact ⟨rfl, rfl, rfl⟩
        · rw [gameState_setTimeout, hg]
        · rw [gameState_setTimeout, hg]
      · obtain ⟨e1, e2, e3, e4, e5, e6, e7⟩ := startNewRound_media s1 videoFiles rnd hv
        rw [hg] at e4 e5 e6 e7
        have hph : phase (startNewRound s1 videoFiles rnd).1.gameState = Phase.bettingOpen :=
          (phase_eq_bettingOpen _).mpr ⟨e2, e3⟩
        refine ⟨?_, ?_, e5, e6⟩
        · unfold Pending
          rw [hph]
          refine ⟨_, _, by rw [e1, herase]; rfl, rfl, rfl, ?_, ?_⟩
          · show s1.now + timerDelay s1.gameState.bettingDuration
              ≤ s1.now + timerDelay s1.gameState.roundDuration
            rw [hg]
            have := timerDelay_le _ _ hd hr
            omega
          · show s1.nextTimerId < s1.nextTimerId + 1
            omega
        · apply Or.inl
          right; left
          exact ⟨e7, hp, hph, e4⟩
    | bettingOpen =>
      rw [hp] at h
      obtain ⟨cb, er, hl0, hcb, her, _, _⟩ := h
      rw [hl0] at hin
      simp only [List.mem_cons, List.mem_singleton, List.not_mem_nil, or_false] at hin
      rcases hin with rfl | rfl
      · rw [hk] at hcb; cases hcb
      · rw [hk] at her; cases her
    | bettingClosed =>
      rw [hp] at h
      obtain ⟨er, hl0, her⟩ := h
      rw [hl0, List.mem_singleton] at hin
      subst hin
      rw [hk] at her; cases her
  | closeBetting =>
    have hl : isLifecycleTimer t = true := by simp [isLifecycleTimer, hk]
    have hin := mem_lifecycleTimers s t hmem hl
    simp only
    unfold Pending at h
    cases hp : phase s.gameState with
    | ended =>
      rw [hp] at h
      rcases h with hnil | ⟨t0, hl0, hk0⟩
      · rw [hnil] at hin; cases hin
      rw [hl0, List.mem_singleton] at hin
      subst hin
      rw [hk] at hk0; cases hk0
    | bettingOpen =>
      rw [hp] at h
      obtain ⟨cb, er, hl0, hcb, her, _, _⟩ := h
      rw [hl0] at hin
      simp only [List.mem_cons, List.mem_singleton, List.not_mem_nil, or_false] at hin
      rcases hin with rfl | rfl
      · rw [hl0, List.erase_cons_head] at herase
        have hplay := ((phase_eq_bettingOpen _).mp hp).1
        have hph : phase (closeBetting s1).1.gameState = Phase.bettingClosed := by
          apply (phase_eq_bettingClosed _).mpr
          simp only [closeBetting, hg]
          exact ⟨hplay, trivial⟩
        refine ⟨?_, ?_, ?_, ?_⟩
        · unfold Pending
          rw [hph]
          exact ⟨er, herase, her⟩
        · apply Or.inl
          right; right; left
          refine ⟨rfl, hp, hph, ?_⟩
          simp only [closeBetting, hg]
        · simp only [closeBetting, hg]
        · simp only [closeBetting, hg]
      · rw [hk] at her; cases her
    | bettingClosed =>
      rw [hp] at h
      obtain ⟨er, hl0, her⟩ := h
      rw [hl0, List.mem_singleton] at hin
      subst hin
      rw [hk] at her; cases her
  | endRound =>
    have hl : isLifecycleTimer t = true := by simp [isLifecycleTimer, hk]
    have hin := mem_lifecycleTimers s t hmem hl
    simp only
    unfold Pending at h
    cases hp : phase s.gameState with
    | ended =>
      rw [hp] at h
      rcases h with hnil | ⟨t0, hl0, hk0⟩
      · rw [hnil] at hin; cases hin
      rw [hl0, List.mem_singleton] at hin
      subst hin
      rw [hk] at hk0; cases hk0
    | bettingOpen =>
      rw [hp] at h
      obtain ⟨cb, er, hl0, hcb, her, hdue, hid⟩ := h
      rw [hl0] at hin
      simp only [List.mem_cons, List.mem_singleton, List.not_mem_nil, or_false] at hin
      rcases hin with rfl | rfl
      · rw [hk] at hcb; cases hcb
      · exfalso
        have hcbmem : cb ∈ s.timers := by
          have : cb ∈ lifecycleTimers s := by rw [hl0]; exact List.mem_cons_self _ _
          exact (List.mem_filter.mp this).1
        apply hmin cb hcbmem
        unfold Timer.before
        omega
    | bettingClosed =>
      rw [hp] at h
      obtain ⟨er, hl0, her⟩ := h
      rw [hl0, List.mem_singleton] at hin
      subst hin
      rw [hl0, List.erase_cons_head] at herase
      cases hb : betStats s1.gameState.bets with
      | ok stats =>
        have hlt := lifecycleTimers_endRound s1 stats hb
        rw [endRound_ok s1 stats hb] at hlt ⊢
        have hph : phase (setTimeout { s1 with gameState :=
            { s1.gameState with isPlaying := false } } TimerKind.startNewRound
            s1.ROUND_GAP).gameState = Phase.ended := by
          apply (phase_eq_ended _).mpr
          rfl
        refine ⟨?_, ?_, ?_, ?_⟩
        · unfold Pending
          rw [hph]
          exact Or.inr ⟨_, by rw [hlt, herase]; rfl, rfl⟩
        · apply Or.inl
          right; right; right
          refine ⟨rfl, hp, hph, ?_⟩
          simp only [gameState_setTimeout, hg]
        · simp only [gameState_setTimeout, hg]
        · simp only [gameState_setTimeout, hg]
      | error e =>
        rw [endRound_error s1 e hb]
        have hph : phase ({ s1 with gameState :=
            { s1.gameState with isPlaying := false } } : Server).gameState = Phase.ended := by
          apply (phase_eq_ended _).mpr
          rfl
        refine ⟨?_, ?_, ?_, ?_⟩
        · unfold Pending
          rw [hph]
          exact Or.inl herase
        · apply Or.inr
          refine ⟨rfl, hp, hph, ?_, e, ?_⟩
          · simp only [hg]
          · rw [← hg]; exact hb
        · simp only [hg]
        · simp only [hg]
  | syncInterval round =>
    have hl : isLifecycleTimer t = false := by simp [isLifecycleTimer, hk]
    rw [erase_of_not_lifecycle s t hl] at herase
    simp only
    obtain ⟨e1, e2, e3⟩ := lifecycleTimers_syncTick s1 round
    rw [hg] at e2
    refine ⟨?_, ?_, by rw [e2], by rw [e2]⟩
    · unfold Pending at h ⊢
      rw [e2, e1, herase]
      exact h
    · apply Or.inl
      left
      rw [e2]
      exact ⟨e3, rfl, rfl⟩

/-- The round-end timer is selected by the event loop only with betting closed. -/
theorem endRound_fires_when_closed (s : Server) (t : Timer) (h : Pending s)
    (hnt : nextTimer s.timers = some t) (hk : t.kind = TimerKind.endRound) :
    phase s.gameState = Phase.bettingClosed := by
  obtain ⟨hmem, hmin⟩ := nextTimer_spec _ _ hnt
  have hl : isLifecycleTimer t = true := by simp [isLifecycleTimer, hk]
  have hin := mem_lifecycleTimers s t hmem hl
  unfold Pending at h
  cases hp : phase s.gameState with
  | ended =>
    rw [hp] at h
    rcases h with hnil | ⟨t0, hl0, hk0⟩
    · rw [hnil] at hin; cases hin
    · rw [hl0, List.mem_singleton] at hin
      subst hin
      rw [hk] at hk0; cases hk0
  | bettingOpen =>
    rw [hp] at h
    obtain ⟨cb, er, hl0, hcb, her, hdue, hid⟩ := h
    rw [hl0] at hin
    simp only [List.mem_cons, List.mem_singleton, List.not_mem_nil, or_false] at hin
    rcases hin with rfl | rfl
    · rw [hk] at hcb; cases hcb
    · exfalso
      have hcbmem : cb ∈ s.timers := by
        have : cb ∈ lifecycleTimers s := by rw [hl0]; exact List.mem_cons_self _ _
        exact (List.mem_filter.mp this).1
      apply hmin cb hcbmem
      unfold Timer.before
      omega
  | bettingClosed => rfl

theorem gameState_endRound (s : Server) :
    (endRound s).1.gameState = { s.gameState with isPlaying := false } := by
  unfold endRound
  simp only
  split <;> rfl

theorem pending_congr (s s' : Server) (ht : s'.timers = s.timers)
    (hp : s'.gameState.isPlaying = s.gameState.isPlaying)
    (hb : s'.gameState.bettingOpen = s.gameState.bettingOpen) (h : Pending s) : Pending s' := by
  have hph : phase s'.gameState = phase s.gameState := by unfold phase; rw [hp, hb]
  have hlt : lifecycleTimers s' = lifecycleTimers s := by unfold lifecycleTimers; rw [ht]
  unfold Pending at h ⊢
  rw [hph, hlt]
  exact h

theorem lifecycleStep_quiet (s s' : Server) (es : List Emit)
    (he : es.filterMap lifecycleOf = [])
    (hp : s'.gameState.isPlaying = s.gameState.isPlaying)
    (hb : s'.gameState.bettingOpen = s.gameState.bettingOpen)
    (hr : s'.gameState.roundNumber = s.gameState.roundNumber) : LifecycleStep s es s' := by
  left
  refine ⟨he, ?_, hr⟩
  unfold phase; rw [hp, hb]

/-- What a turn that is not a timer turn leaves alone. -/
theorem step_env (s : Server) (a : Action) (ha : ∀ vf rnd, a ≠ Action.timer vf rnd) :
    (step s a).1.timers = s.timers ∧
    (step s a).1.gameState.isPlaying = s.gameState.isPlaying ∧
    (step s a).1.gameState.bettingOpen = s.gameState.bettingOpen ∧
    (step s a).1.gameState.roundNumber = s.gameState.roundNumber ∧
    (step s a).1.gameState.bettingDuration = s.gameState.bettingDuration ∧
    (step s a).1.gameState.roundDuration = s.gameState.roundDuration ∧
    (step s a).2.filterMap lifecycleOf = [] := by
  cases a with
  | timer vf rnd => exact absurd rfl (ha vf rnd)
  | elapse ms =>
    unfold step
    simp only
    split <;> exact ⟨rfl, rfl, rfl, rfl, rfl, rfl, rfl⟩
  | connect ws clientIp =>
    unfold step onConnection
    simp only
    split <;> exact ⟨rfl, rfl, rfl, rfl, rfl, rfl, rfl⟩
  | message ws message =>
    unfold step
    simp only
    split
    · exact ⟨rfl, rfl, rfl, rfl, rfl, rfl, rfl⟩
    · unfold onMessage
      split
      · exact ⟨rfl, rfl, rfl, rfl, rfl, rfl, rfl⟩
      · split
        · split
          · simp only
            split <;> exact ⟨rfl, rfl, rfl, rfl, rfl, rfl, rfl⟩
          · exact ⟨rfl, rfl, rfl, rfl, rfl, rfl, rfl⟩
        · split <;> exact ⟨rfl, rfl, rfl, rfl, rfl, rfl, rfl⟩
  | close ws =>
    unfold step
    simp only
    split <;> exact ⟨rfl, rfl, rfl, rfl, rfl, rfl, rfl⟩
  | transport ws readyState sendThrows =>
    exact ⟨rfl, rfl, rfl, rfl, rfl, rfl, rfl⟩

/-- Every turn keeps the invariant of the scheduler and is one lifecycle step, or the
end of a round whose tally raised. -/
theorem step_scheduled (s : Server) (a : Action) (h : Scheduled s) :
    Scheduled (step s a).1 ∧
    (LifecycleStep s (step s a).2 (step s a).1 ∨ SilentEnd s (step s a).2 (step s a).1) := by
  obtain ⟨hd, hr, hpend⟩ := h
  by_cases ha : ∀ vf rnd, a ≠ Action.timer vf rnd
  · obtain ⟨e1, e2, e3, e4, e5, e6, e7⟩ := step_env s a ha
    exact ⟨⟨by rw [e5, e6]; exact hd, by rw [e6]; exact hr, pending_congr s _ e1 e2 e3 hpend⟩,
      Or.inl (lifecycleStep_quiet s _ _ e7 e2 e3 e4)⟩
  · push_neg at ha
    obtain ⟨vf, rnd, rfl⟩ := ha
    unfold step
    simp only
    cases hnt : nextTimer s.timers with
    | none =>
      exact ⟨⟨hd, hr, hpend⟩, Or.inl (lifecycleStep_quiet s s [] rfl rfl rfl rfl)⟩
    | some t =>
      obtain ⟨r1, r2, r3, r4⟩ := runTimer_scheduled s t vf rnd hd hr hpend hnt
      exact ⟨⟨by rw [r3, r4]; exact hd, by rw [r4]; exact hr, r1⟩, r2⟩

/-- With a ledger whose bets all convert to text, every turn is one lifecycle step. -/
theorem step_lifecycle (s : Server) (a : Action) (h : Scheduled s) (ht : TextLedger s) :
    LifecycleStep s (step s a).2 (step s a).1 := by
  rcases (step_scheduled s a h).2 with hl | ⟨_, _, _, _, e, he⟩
  · exact hl
  · obtain ⟨stats, hs⟩ := betStats_of_textLedger s ht
    rw [hs] at he
    cases he

theorem mem_mapSet (m : BetMap) (k : String) (v : JsonValue) (e : String × JsonValue)
    (he : e ∈ mapSet m k v) : e ∈ m ∨ e = (k, v) := by
  induction m with
  | nil =>
    simp only [mapSet, List.mem_singleton] at he
    exact Or.inr he
  | cons x rest ih =>
    obtain ⟨k0, v0⟩ := x
    unfold mapSet at he
    by_cases h : k0 = k
    · rw [if_pos h, List.mem_cons] at he
      rcases he with he | he
      · exact Or.inr he
      · exact Or.inl (List.mem_cons_of_mem _ he)
    · rw [if_neg h, List.mem_cons] at he
      rcases he with he | he
      · exact Or.inl (he ▸ List.mem_cons_self _ _)
      · rcases ih he with h1 | h1
        · exact Or.inl (List.mem_cons_of_mem _ h1)
        · exact Or.inr h1

/-- An entry of the ledger after a turn was there before the turn, or holds the bet of
the `place_bet` message of the turn. -/
theorem step_bets (s : Server) (a : Action) (e : String × JsonValue)
    (he : e ∈ (step s a).1.gameState.bets) :
    e ∈ s.gameState.bets ∨
      ∃ ws data, a = Action.message ws (some data) ∧ data.type = "place_bet" ∧
        e.2 = data.bet := by
  cases a with
  | timer vf rnd =>
    left
    revert he
    unfold step
    simp only
    split
    · exact id
    · rename_i t _
      unfold runTimer
      split
      · unfold startNewRound
        split
        · exact id
        · intro he; cases he
      · exact id
      · unfold endRound
        simp only
        split <;> exact id
      · unfold syncTick
        split <;> exact id
  | elapse ms =>
    left
    revert he
    unfold step
    simp only
    split <;> exact id
  | connect ws clientIp =>
    left
    revert he
    unfold step onConnection
    simp only
    split <;> exact id
  | message ws message =>
    revert he
    unfold step
    simp only
    split
    · exact Or.inl
    · rename_i c hc
      unfold onMessage
      split
      · exact Or.inl
      · rename_i data
        split
        · rename_i htype
          split
          · have hset : e ∈ mapSet s.gameState.bets c.clientId data.bet →
                e ∈ s.gameState.bets ∨
                  ∃ ws' data', Action.message ws (some data) = Action.message ws' (some data') ∧
                    data'.type = "place_bet" ∧ e.2 = data'.bet := by
              intro he
              rcases mem_mapSet _ _ _ _ he with h1 | h1
              · exact Or.inl h1
              · exact Or.inr ⟨ws, data, rfl, htype, by rw [h1]⟩
            simp only
            split <;> exact hset
          · exact Or.inl
        · split <;> exact Or.inl
  | close ws =>
    left
    revert he
    unfold step
    simp only
    split
    · exact id
    · intro he
      exact (List.mem_filter.mp he).1
  | transport ws readyState sendThrows => exact Or.inl he

theorem step_textLedger (s : Server) (a : Action) (rest : List Action)
    (ht : TextLedger s) (ha : TextBets (a :: rest)) : TextLedger (step s a).1 := by
  intro e he
  rcases step_bets s a e he with h1 | ⟨ws, data, rfl, htype, hbet⟩
  · exact ht e h1
  · rw [hbet]
    exact ha ws data (List.mem_cons_self _ _) htype

theorem textBets_tail (a : Action) (rest : List Action) (h : TextBets (a :: rest)) :
    TextBets rest :=
  fun ws data hm ht => h ws data (List.mem_cons_of_mem _ hm) ht

theorem expectedFrom_zero (p : Phase) (r : Nat) : expectedFrom p r 0 = [] := by
  cases p <;> rfl

theorem phaseAfter_zero (p : Phase) : phaseAfter p 0 = p := by
  cases p <;> rfl

theorem lifecycleTrace_cons (es : List Emit) (outs : List (List Emit)) :
    lifecycleTrace (es :: outs) = es.filterMap lifecycleOf ++ lifecycleTrace outs := by
  unfold lifecycleTrace
  simp

/-- From any state that satisfies the invariant and whose recorded bets convert to text,
the lifecycle events of any run in which every submitted bet converts to text are the
expected ones and the final phase is the one they lead to. -/
theorem run_lifecycle (as : List Action) :
    ∀ s : Server, Scheduled s → TextLedger s → TextBets as →
      lifecycleTrace (run s as).2 =
        expectedFrom (phase s.gameState) s.gameState.roundNumber
          (lifecycleTrace (run s as).2).length ∧
      phase (run s as).1.gameState =
        phaseAfter (phase s.gameState) (lifecycleTrace (run s as).2).length ∧
      Scheduled (run s as).1 ∧ TextLedger (run s as).1 := by
  induction as with
  | nil =>
    intro s h ht _
    simp only [run, lifecycleTrace, List.flatten_nil, List.filterMap_nil, List.length_nil,
      expectedFrom_zero, phaseAfter_zero]
    exact ⟨trivial, trivial, h, ht⟩
  | cons a rest ih =>
    intro s h ht hbets
    have h1 := (step_scheduled s a h).1
    have hstep := step_lifecycle s a h ht
    obtain ⟨i1, i2, i3⟩ := ih (step s a).1 h1 (step_textLedger s a rest ht hbets)
      (textBets_tail a rest hbets)
    simp only [run, lifecycleTrace_cons]
    rcases hstep with ⟨he, hp, hr⟩ | ⟨he, hp, hp', hr⟩ | ⟨he, hp, hp', hr⟩ | ⟨he, hp, hp', hr⟩
    · rw [he, List.nil_append, ← hp, ← hr]
      exact ⟨i1, i2, i3⟩
    · rw [he, hp]
      rw [hp', hr] at i1
      rw [hp'] at i2
      simp only [List.singleton_append, List.length_cons, expectedFrom, phaseAfter]
      exact ⟨congrArg (List.cons _) i1, i2, i3⟩
    · rw [he, hp]
      rw [hp', hr] at i1
      rw [hp'] at i2
      simp only [List.singleton_append, List.length_cons, expectedFrom, phaseAfter]
      exact ⟨congrArg (List.cons _) i1, i2, i3⟩
    · rw [he, hp]
      rw [hp', hr] at i1
      rw [hp'] at i2
      simp only [List.singleton_append, List.length_cons, expectedFrom, phaseAfter]
      exact ⟨congrArg (List.cons _) i1, i2, i3⟩

theorem scheduled_initialServer (bd rd gap t0 : Nat) (hd : bd ≤ rd) (hr : rd ≤ TIMEOUT_MAX) :
    Scheduled (initialServer bd rd gap t0) := by
  refine ⟨hd, hr, ?_⟩
  unfold Pending
  exact Or.inr ⟨{ id := 0, due := t0 + 3000, kind := TimerKind.startNewRound }, rfl, rfl⟩

theorem textLedger_initialServer (bd rd gap t0 : Nat) :
    TextLedger (initialServer bd rd gap t0) := by
  intro e he
  cases he

/-! ## Progress of a round -/

theorem backlog_erase (l : List Timer) (t : Timer) (D : Nat) (h : t ∈ l) :
    backlog (l.erase t) D + timerWeight D t = backlog l D := by
  induction l with
  | nil => simp at h
  | cons x xs ih =>
    by_cases hx : x = t
    · subst hx
      simp only [List.erase_cons_head, backlog, List.map_cons, List.sum_cons]
      omega
    · have hmem : t ∈ xs := by
        rcases List.mem_cons.mp h with h1 | h1
        · exact absurd h1.symm hx
        · exact h1
      have hbeq : (x == t) = false := by simpa using hx
      have := ih hmem
      simp only [List.erase_cons, hbeq, backlog, List.map_cons, List.sum_cons] at this ⊢
      simp only [Bool.false_eq_true, if_false, List.map_cons, List.sum_cons]
      omega

theorem backlog_append (l : List Timer) (u : Timer) (D : Nat) :
    backlog (l ++ [u]) D = backlog l D + timerWeight D u := by
  simp [backlog]

theorem pending_kinds (s : Server) (h : Pending s) (hp : phase s.gameState ≠ Phase.ended)
    (u : Timer) (hu : u ∈ lifecycleTimers s) :
    u.kind = TimerKind.closeBetting ∨ u.kind = TimerKind.endRound := by
  unfold Pending at h
  cases hph : phase s.gameState with
  | ended => exact absurd hph hp
  | bettingOpen =>
    rw [hph] at h
    obtain ⟨cb, er, hl, hcb, her, _, _⟩ := h
    rw [hl] at hu
    simp only [List.mem_cons, List.mem_singleton, List.not_mem_nil, or_false] at hu
    rcases hu with rfl | rfl
    · exact Or.inl hcb
    · exact Or.inr her
  | bettingClosed =>
    rw [hph] at h
    obtain ⟨er, hl, her⟩ := h
    rw [hl, List.mem_singleton] at hu
    subst hu
    exact Or.inr her

/-- A timer turn while a round is in progress either ends the round or leaves the
round in progress with less work before its deadline. -/
theorem timer_progress (s : Server) (D : Nat) (t : Timer) (videoFiles : List String)
    (rnd : Rand) (h : PlayingUntil s D) (hnt : nextTimer s.timers = some t) :
    Lifecycle.game_end ∈
      (runTimer { s with timers := s.timers.erase t, now := max s.now t.due } t
        videoFiles rnd).2.filterMap lifecycleOf ∨
    (PlayingUntil
      (runTimer { s with timers := s.timers.erase t, now := max s.now t.due } t
        videoFiles rnd).1 D ∧
     backlog (runTimer { s with timers := s.timers.erase t, now := max s.now t.due } t
        videoFiles rnd).1.timers D < backlog s.timers D) := by
  obtain ⟨⟨hd, hr, hpend⟩, htext, hph, er, her, herk, herd⟩ := h
  obtain ⟨r1, _, r3, r4⟩ := runTimer_scheduled s t videoFiles rnd hd hr hpend hnt
  have r5 : TextLedger (runTimer { s with timers := s.timers.erase t, now := max s.now t.due }
      t videoFiles rnd).1 := by
    have h5 := step_textLedger s (Action.timer videoFiles rnd) [] htext
      (by intro ws data hm; simp at hm)
    unfold step at h5
    simp only [hnt] at h5
    exact h5
  obtain ⟨hmem, hmin⟩ := nextTimer_spec _ _ hnt
  have hermem : er ∈ s.timers := (List.mem_filter.mp her).1
  have htdue : t.due ≤ D := by
    have := hmin er hermem
    unfold Timer.before at this
    omega
  have hw : 1 ≤ timerWeight D t := by
    unfold timerWeight
    rw [if_pos htdue]
    omega
  have hbl := backlog_erase s.timers t D hmem
  have herase := lifecycleTimers_erase s t (max s.now t.due)
  have hplay : s.gameState.isPlaying = true := by
    cases hip : s.gameState.isPlaying with
    | true => rfl
    | false => exact absurd ((phase_eq_ended _).mpr hip) hph
  generalize hs1 : ({ s with timers := s.timers.erase t, now := max s.now t.due } : Server) = s1
    at herase r1 r3 r4 r5 ⊢
  have hg : s1.gameState = s.gameState := by rw [← hs1]
  have ht1 : s1.timers = s.timers.erase t := by rw [← hs1]
  have hn1 : s1.now = max s.now t.due := by rw [← hs1]
  revert r1 r3 r4 r5
  unfold runTimer
  cases hk : t.kind with
  | startNewRound =>
    intro _ _ _ _
    have hl : isLifecycleTimer t = true := by simp [isLifecycleTimer, hk]
    rcases pending_kinds s hpend hph t (mem_lifecycleTimers s t hmem hl) with h1 | h1
    · rw [hk] at h1; cases h1
    · rw [hk] at h1; cases h1
  | closeBetting =>
    intro r1 r3 r4 r5
    simp only at r1 r3 r4 r5 ⊢
    right
    have hne : er ≠ t := by
      intro he
      rw [he, hk] at herk
      cases herk
    refine ⟨⟨⟨by rw [r3, r4]; exact hd, by rw [r4]; exact hr, r1⟩, r5, ?_, er, ?_, herk,
      herd⟩, ?_⟩
    · intro hc
      have := (phase_eq_ended _).mp hc
      simp only [closeBetting, hg, hplay] at this
      cases this
    · show er ∈ lifecycleTimers s1
      rw [herase]
      exact (List.mem_erase_of_ne hne).mpr her
    · show backlog s1.timers D < backlog s.timers D
      rw [ht1]
      omega
  | endRound =>
    intro _ _ _ _
    left
    obtain ⟨stats, hs⟩ := betStats_of_textLedger s htext
    rw [← hg] at hs
    simp only
    rw [endRound_ok s1 stats hs]
    simp [lifecycleOf]
  | syncInterval round =>
    intro r1 r3 r4 r5
    simp only at r1 r3 r4 r5 ⊢
    right
    have hl : isLifecycleTimer t = false := by simp [isLifecycleTimer, hk]
    rw [erase_of_not_lifecycle s t hl] at herase
    obtain ⟨e1, e2, _⟩ := lifecycleTimers_syncTick s1 round
    refine ⟨⟨⟨by rw [r3, r4]; exact hd, by rw [r4]; exact hr, r1⟩, r5, ?_, er, ?_, herk,
      herd⟩, ?_⟩
    · rw [e2, hg]
      exact hph
    · rw [e1, herase]
      exact her
    · unfold syncTick
      rw [hg, hplay]
      simp only [Bool.not_true, Bool.false_eq_true, if_false, setTimeout]
      rw [backlog_append, ht1]
      have hdl : timerDelay 1000 = 1000 := by decide
      rw [hdl]
      have : timerWeight D (Timer.mk s1.nextTimerId (s1.now + 1000)
          (TimerKind.syncInterval round)) < timerWeight D t := by
        unfold timerWeight
        simp only
        rw [if_pos htdue, hn1]
        split <;> omega
      omega

theorem playingUntil_env (s : Server) (D : Nat) (a : Action) (rest : List Action)
    (ha : ∀ vf rnd, a ≠ Action.timer vf rnd) (hbets : TextBets (a :: rest))
    (h : PlayingUntil s D) :
    PlayingUntil (step s a).1 D ∧ (step s a).1.timers = s.timers := by
  obtain ⟨hs, htext, hph, er, her, herk, herd⟩ := h
  obtain ⟨e1, e2, e3, _, _, _, _⟩ := step_env s a ha
  have hphase : phase (step s a).1.gameState = phase s.gameState := by
    unfold phase; rw [e2, e3]
  refine ⟨⟨(step_scheduled s a hs).1, step_textLedger s a rest htext hbets,
    by rw [hphase]; exact hph, er, ?_, herk, herd⟩, e1⟩
  unfold lifecycleTimers at her ⊢
  rw [e1]
  exact her

theorem timerTurns_env (a : Action) (rest : List Action)
    (ha : ∀ vf rnd, a ≠ Action.timer vf rnd) : timerTurns (a :: rest) = timerTurns rest := by
  cases a with
  | timer vf rnd => exact absurd rfl (ha vf rnd)
  | elapse ms => rfl
  | connect ws clientIp => rfl
  | message ws message => rfl
  | close ws => rfl
  | transport ws readyState sendThrows => rfl

/-- While a round is in progress, any sequence of turns whose submitted bets convert to
text and with at least as many timer turns as there is work before the deadline
contains the end of the round. -/
theorem playing_reaches_end (more : List Action) :
    ∀ (s : Server) (D : Nat), PlayingUntil s D → TextBets more →
      backlog s.timers D ≤ timerTurns more →
      Lifecycle.game_end ∈ lifecycleTrace (run s more).2 := by
  induction more with
  | nil =>
    intro s D h _ hb
    exfalso
    obtain ⟨_, _, _, er, her, _, herd⟩ := h
    have hermem : er ∈ s.timers := (List.mem_filter.mp her).1
    have := backlog_erase s.timers er D hermem
    have hw : timerWeight D er = 1 := by
      unfold timerWeight
      rw [herd]
      simp
    simp only [timerTurns] at hb
    omega
  | cons a rest ih =>
    intro s D h hbets hb
    have hrest := textBets_tail a rest hbets
    simp only [run, lifecycleTrace_cons, List.mem_append]
    by_cases ha : ∀ vf rnd, a ≠ Action.timer vf rnd
    · obtain ⟨h1, ht⟩ := playingUntil_env s D a rest ha hbets h
      right
      apply ih _ D h1 hrest
      rw [ht, ← timerTurns_env a rest ha]
      exact hb
    · push_neg at ha
      obtain ⟨vf, rnd, rfl⟩ := ha
      have hermem : ∃ er, er ∈ s.timers := by
        obtain ⟨_, _, _, er, her, _, _⟩ := h
        exact ⟨er, (List.mem_filter.mp her).1⟩
      obtain ⟨er, hermem⟩ := hermem
      cases hnt : nextTimer s.timers with
      | none => exact absurd hnt (nextTimer_ne_none _ er hermem)
      | some t =>
        have hstep : step s (Action.timer vf rnd) =
            runTimer { s with timers := s.timers.erase t, now := max s.now t.due } t vf rnd := by
          unfold step
          simp only [hnt]
        rw [hstep]
        rcases timer_progress s D t vf rnd h hnt with hend | ⟨h1, hlt⟩
        · exact Or.inl hend
        · right
          apply ih _ D h1 hrest
          simp only [timerTurns] at hb
          omega

theorem playingUntil_of_scheduled (s : Server) (h : Scheduled s) (ht : TextLedger s)
    (hp : phase s.gameState ≠ Phase.ended) : ∃ D, PlayingUntil s D := by
  have hpend := h.2.2
  unfold Pending at hpend
  cases hph : phase s.gameState with
  | ended => exact absurd hph hp
  | bettingOpen =>
    rw [hph] at hpend
    obtain ⟨cb, er, hl, _, her, _, _⟩ := hpend
    exact ⟨er.due, h, ht, hp, er, by rw [hl]; simp, her, rfl⟩
  | bettingClosed =>
    rw [hph] at hpend
    obtain ⟨er, hl, her⟩ := hpend
    exact ⟨er.due, h, ht, hp, er, by rw [hl]; simp, her, rfl⟩

theorem expectedFrom_bettingOpen_prefix (r n : Nat)
    (h : Lifecycle.game_end ∈ expectedFrom Phase.bettingOpen r n) :
    [Lifecycle.betting_closed, Lifecycle.game_end] <+: expectedFrom Phase.bettingOpen r n := by
  match n with
  | 0 => simp [expectedFrom] at h
  | 1 => simp [expectedFrom] at h
  | n + 2 =>
    simp only [expectedFrom]
    exact ⟨expectedFrom Phase.ended r n, rfl⟩

theorem expectedFrom_bettingClosed_prefix (r n : Nat)
    (h : Lifecycle.game_end ∈ expectedFrom Phase.bettingClosed r n) :
    [Lifecycle.game_end] <+: expectedFrom Phase.bettingClosed r n := by
  match n with
  | 0 => simp [expectedFrom] at h
  | n + 1 =>
    simp only [expectedFrom]
    exact ⟨expectedFrom Phase.ended r n, rfl⟩

/-- Once no timer is pending, no later turn emits a lifecycle event or arms a timer. -/
theorem run_without_timers (more : List Action) :
    ∀ s : Server, s.timers = [] →
      lifecycleTrace (run s more).2 = [] ∧ (run s more).1.timers = [] := by
  induction more with
  | nil => intro s h; exact ⟨rfl, h⟩
  | cons a rest ih =>
    intro s h
    simp only [run, lifecycleTrace_cons]
    by_cases ha : ∀ vf rnd, a ≠ Action.timer vf rnd
    · obtain ⟨e1, _, _, _, _, _, e7⟩ := step_env s a ha
      obtain ⟨i1, i2⟩ := ih (step s a).1 (by rw [e1]; exact h)
      rw [e7, i1]
      exact ⟨rfl, i2⟩
    · push_neg at ha
      obtain ⟨vf, rnd, rfl⟩ := ha
      have hstep : step s (Action.timer vf rnd) = (s, []) := by
        unfold step
        simp only [h, nextTimer]
      rw [hstep]
      obtain ⟨i1, i2⟩ := ih s h
      rw [i1]
      exact ⟨rfl, i2⟩

/-- The order of the round lifecycle where the code keeps it. For every configuration
with `bettingDuration ≤ roundDuration ≤ 2147483647` and every sequence of turns of the
event loop from start-up (timer turns with or without media available, clock advances,
connections, messages, closes, in any interleaving) in which every submitted bet
converts to text: the lifecycle events emitted so far are `game_start` of round 1,
`betting_closed`, `game_end`, `game_start` of round 2, `betting_closed`, `game_end`,
... in exactly this order, each once per round, so that the `game_start` of the next
round comes only after the `game_end` of this one; the phase of the state reached is
the one these events lead to (`BettingOpen` after a `game_start`, `BettingClosed` after
a `betting_closed`, `Ended` after a `game_end`); and a round that has started does go
through the remaining phases: once enough timer turns have run, `betting_closed` and
then `game_end` have been emitted. -/
theorem round_lifecycle_order (bd rd gap t0 : Nat) (hd : bd ≤ rd) (hr : rd ≤ 2147483647)
    (as : List Action) (hbets : TextBets as) :
    lifecycleTrace (run (initialServer bd rd gap t0) as).2 =
      expectedFrom Phase.ended 0
        (lifecycleTrace (run (initialServer bd rd gap t0) as).2).length ∧
    phase (run (initialServer bd rd gap t0) as).1.gameState =
      phaseAfter Phase.ended (lifecycleTrace (run (initialServer bd rd gap t0) as).2).length ∧
    (phase (run (initialServer bd rd gap t0) as).1.gameState = Phase.bettingOpen →
      ∃ n, ∀ more, TextBets more → n ≤ timerTurns more →
        [Lifecycle.betting_closed, Lifecycle.game_end] <+:
          lifecycleTrace (run (run (initialServer bd rd gap t0) as).1 more).2) ∧
    (phase (run (initialServer bd rd gap t0) as).1.gameState = Phase.bettingClosed →
      ∃ n, ∀ more, TextBets more → n ≤ timerTurns more →
        [Lifecycle.game_end] <+:
          lifecycleTrace (run (run (initialServer bd rd gap t0) as).1 more).2) := by
  obtain ⟨h1, h2, h3, h4⟩ := run_lifecycle as _ (scheduled_initialServer bd rd gap t0 hd hr)
    (textLedger_initialServer bd rd gap t0) hbets
  refine ⟨h1, h2, ?_, ?_⟩
  · intro hp
    obtain ⟨D, hD⟩ := playingUntil_of_scheduled _ h3 h4 (by rw [hp]; decide)
    refine ⟨backlog (run (initialServer bd rd gap t0) as).1.timers D, ?_⟩
    intro more hmb hmore
    have hend := playing_reaches_end more _ D hD hmb hmore
    obtain ⟨m1, _, _⟩ := run_lifecycle more _ h3 h4 hmb
    rw [hp] at m1
    rw [m1] at hend ⊢
    exact expectedFrom_bettingOpen_prefix _ _ hend
  · intro hp
    obtain ⟨D, hD⟩ := playingUntil_of_scheduled _ h3 h4 (by rw [hp]; decide)
    refine ⟨backlog (run (initialServer bd rd gap t0) as).1.timers D, ?_⟩
    intro more hmb hmore
    have hend := playing_reaches_end more _ D hD hmb hmore
    obtain ⟨m1, _, _⟩ := run_lifecycle more _ h3 h4 hmb
    rw [hp] at m1
    rw [m1] at hend ⊢
    exact expectedFrom_bettingClosed_prefix _ _ hend

/-- Instance of the order of the lifecycle: 34 timer turns of the default configuration
run round 1 through its three events and open round 2. -/
theorem round_lifecycle_order_default :
    19000 ≤ 30000 ∧
    lifecycleTrace (run (initialServer 19000 30000 5000 0) (List.replicate 34 tick)).2 =
      [Lifecycle.game_start 1, Lifecycle.betting_closed, Lifecycle.game_end,
       Lifecycle.game_start 2] ∧
    phase (run (initialServer 19000 30000 5000 0) (List.replicate 34 tick)).1.gameState
      = Phase.bettingOpen := by
  have h := round_lifecycle_order 19000 30000 5000 0 (by decide) (by decide)
    (List.replicate 34 tick)
    (by intro ws data hm; exact absurd (List.eq_of_mem_replicate hm) (by simp [tick]))
  have e : (lifecycleTrace
      (run (initialServer 19000 30000 5000 0) (List.replicate 34 tick)).2).length = 4 := by
    decide
  rw [e] at h
  exact ⟨by decide, h.1, h.2.1⟩

/-- C4 fails on the code. In round 1 of the default configuration (`0 < 19000 ≤ 30000`)
the only client sends a `place_bet` whose bet is the object `\x7b"toString":0\x7d`
while betting is open. The bet is recorded; at the round-end instant the tally converts
it to a property key, which raises after `isPlaying` was set to `false` and before the
broadcast and before the timer of the next round is armed. So the round reaches `Ended`
with `game_start` and `betting_closed` emitted but no `game_end`, no timer is pending,
and no sequence of later turns emits any lifecycle event: no next round starts. With
`ROUND_DURATION = 3000000000` (`0 < 19000 ≤ 3000000000`) the round-end timer fires one
millisecond after `game_start`, so `game_end` comes with betting still open and before
any `betting_closed`. -/
theorem round_lifecycle_stops :
    toStringRun[12]?
      = some (Action.message 1 (some { type := "place_bet", bet := toStringBet })) ∧
    (run server0 (toStringRun.take 13)).1.gameState.bets
      = [("10.0.0.1-13000", toStringBet)] ∧
    (run server0 (toStringRun.take 13)).2[12]? = some [] ∧
    lifecycleTrace (run server0 toStringRun).2
      = [Lifecycle.game_start 1, Lifecycle.betting_closed] ∧
    phase (run server0 toStringRun).1.gameState = Phase.ended ∧
    (run server0 toStringRun).1.now = 33000 ∧
    (run server0 toStringRun).1.timers = [] ∧
    (∀ more, lifecycleTrace (run (run server0 toStringRun).1 more).2 = []) ∧
    phase (run (initialServer 19000 3000000000 5000 0) [tick]).1.gameState
      = Phase.bettingOpen ∧
    (run (initialServer 19000 3000000000 5000 0) [tick, tick]).1.now = 3001 ∧
    phase (run (initialServer 19000 3000000000 5000 0) [tick, tick]).1.gameState
      = Phase.ended ∧
    (run (initialServer 19000 3000000000 5000 0) [tick, tick]).1.gameState.bettingOpen
      = true ∧
    lifecycleTrace (run (initialServer 19000 3000000000 5000 0) (List.replicate 5 tick)).2
      = [Lifecycle.game_start 1, Lifecycle.game_end, Lifecycle.game_start 2,
         Lifecycle.game_end] := by
  refine ⟨by decide, by decide, by decide, by decide, by decide, by decide, by decide,
    fun more => (run_without_timers more _ (by decide)).1, by decide, by decide, by decide,
    by decide, by decide⟩

/-! ## Bets outside a round -/

/-- A turn cannot produce the flags "not playing, betting open": a state with these
flags had them before the turn, in the same round. -/
theorem step_idle_open (s : Server) (a : Action) (h : Scheduled s)
    (hp : (step s a).1.gameState.isPlaying = false)
    (hb : (step s a).1.gameState.bettingOpen = true) :
    s.gameState.isPlaying = false ∧ s.gameState.bettingOpen = true ∧
    (step s a).1.gameState.roundNumber = s.gameState.roundNumber := by
  by_cases ha : ∀ vf rnd, a ≠ Action.timer vf rnd
  · obtain ⟨_, e2, e3, e4, _, _, _⟩ := step_env s a ha
    exact ⟨by rw [← e2]; exact hp, by rw [← e3]; exact hb, e4⟩
  · push_neg at ha
    obtain ⟨vf, rnd, rfl⟩ := ha
    revert hp hb
    cases hnt : nextTimer s.timers with
    | none =>
      have hq : step s (Action.timer vf rnd) = (s, []) := by
        unfold step; simp only [hnt]
      rw [hq]
      intro hp hb; exact ⟨hp, hb, rfl⟩
    | some t =>
      have hq : step s (Action.timer vf rnd) =
          runTimer { s with timers := s.timers.erase t, now := max s.now t.due } t vf rnd := by
        unfold step; simp only [hnt]
      rw [hq]
      generalize hs1 : ({ s with timers := s.timers.erase t, now := max s.now t.due } : Server)
        = s1
      have hg : s1.gameState = s.gameState := by rw [← hs1]
      cases hk : t.kind with
      | startNewRound =>
        have hrt : runTimer s1 t vf rnd = startNewRound s1 vf rnd := by
          unfold runTimer; rw [hk]
        rw [hrt]
        unfold startNewRound
        split
        · intro hp hb
          rw [gameState_setTimeout, hg] at hp hb ⊢
          exact ⟨hp, hb, rfl⟩
        · intro hp _; cases hp
      | closeBetting =>
        have hrt : runTimer s1 t vf rnd = closeBetting s1 := by
          unfold runTimer; rw [hk]
        rw [hrt]
        intro _ hb; cases hb
      | endRound =>
        have hrt : runTimer s1 t vf rnd = endRound s1 := by
          unfold runTimer; rw [hk]
        rw [hrt]
        intro _ hb
        exfalso
        have hb' : s.gameState.bettingOpen = true := by
          rw [gameState_endRound] at hb
          rw [← hg]; exact hb
        have := ((phase_eq_bettingClosed _).mp
          (endRound_fires_when_closed s t h.2.2 hnt hk)).2
        rw [hb'] at this
        cases this
      | syncInterval round =>
        have hrt : runTimer s1 t vf rnd = syncTick s1 round := by
          unfold runTimer; rw [hk]
        rw [hrt]
        intro hp hb
        have e := (lifecycleTimers_syncTick s1 round).2.1
        rw [e, hg] at hp hb ⊢
        exact ⟨hp, hb, rfl⟩

/-- From start-up with `bettingDuration ≤ roundDuration ≤ 2147483647`, the flags "not
playing, betting open" occur only before the first round has started: once
`roundNumber` is positive, `bettingOpen` implies `isPlaying`, and a `place_bet` is
accepted only in the `BettingOpen` phase of a round. -/
theorem bettingOpen_idle_only_before_first_round (as : List Action) :
    ∀ s : Server, Scheduled s →
      (s.gameState.isPlaying = false → s.gameState.bettingOpen = true →
        s.gameState.roundNumber = 0) →
      ((run s as).1.gameState.isPlaying = false →
        (run s as).1.gameState.bettingOpen = true →
        (run s as).1.gameState.roundNumber = 0) := by
  induction as with
  | nil => intro s _ h; exact h
  | cons a rest ih =>
    intro s hs h
    simp only [run]
    apply ih (step s a).1 (step_scheduled s a hs).1
    intro hp hb
    obtain ⟨h1, h2, h3⟩ := step_idle_open s a hs hp hb
    rw [h3]
    exact h h1 h2

/-- C11 fails on the code before the first round. In the default configuration a client
that connects one second after start-up is told to wait (no round is in progress:
`isPlaying` is false, `roundNumber` is 0, the phase is not `BettingOpen`), yet its
`place_bet` is recorded in the ledger and answered by `bet_confirmed`, because the
`gameState` literal starts with `bettingOpen: true`; the first `startNewRound` then
clears the recorded bet. -/
theorem bet_confirmed_before_first_round :
    (run server0 earlyBetRun).1.gameState.isPlaying = false ∧
    (run server0 earlyBetRun).1.gameState.roundNumber = 0 ∧
    phase (run server0 earlyBetRun).1.gameState ≠ Phase.bettingOpen ∧
    (run server0 earlyBetRun).1.gameState.bets = [("10.0.0.1-1000", JsonValue.str "red")] ∧
    (run server0 earlyBetRun).2 =
      [[], [Emit.send 1 (Msg.waiting 1000)],
       [Emit.send 1 (Msg.bet_confirmed (JsonValue.str "red") 1000)]] ∧
    (run server0 (earlyBetRun ++ [tick])).1.gameState.bets = [] := by
  decide

/-! ## Sync intervals across rounds -/

/-- C12 fails on the code when the inter-round gap is shorter than the sync period. With
a 30.5 s round and a 200 ms gap, round 1 ends at instant 33500 while its interval is
armed for instant 34000; round 2 starts at instant 33700; the interval of round 1 is
the next timer to fire, finds `isPlaying` true and broadcasts `time_sync`; from then on
the intervals of round 1 and of round 2 are both armed and both broadcast. With a gap of
at least the sync period the claim holds (`sync_interval_of_round_in_progress`). -/
theorem stale_sync_interval_broadcasts :
    lifecycleTrace (run shortGap (List.replicate 34 tick)).2 =
      [Lifecycle.game_start 1, Lifecycle.betting_closed, Lifecycle.game_end,
       Lifecycle.game_start 2] ∧
    (run shortGap (List.replicate 34 tick)).1.gameState.roundNumber = 2 ∧
    nextTimer (run shortGap (List.replicate 34 tick)).1.timers =
      some { id := 33, due := 34000, kind := TimerKind.syncInterval 1 } ∧
    (step (run shortGap (List.replicate 34 tick)).1 tick).2 =
      [Emit.broadcast (Msg.time_sync 300 34000 true)] ∧
    ((run shortGap (List.replicate 37 tick)).1.timers.filter
        (fun t => !isLifecycleTimer t)).map Timer.kind =
      [TimerKind.syncInterval 2, TimerKind.syncInterval 1] ∧
    (run shortGap (List.replicate 37 tick)).2.drop 34 =
      [[Emit.broadcast (Msg.time_sync 300 34000 true)],
       [Emit.broadcast (Msg.time_sync 1000 34700 true)],
       [Emit.broadcast (Msg.time_sync 1300 35000 true)]] := by
  decide

/-! ## Large drift -/

/-- Outside the window `0.5 < drift < 5` the drift check does nothing. -/
theorem syncCheck_idle (a : App) (now : Nat)
    (hr : ¬ (Dbl.lt MAX_SYNC_DIFF (drift a now) ∧ Dbl.lt (drift a now) (Dbl.ofRatio 5 1))) :
    syncCheck a now = (a, []) := by
  unfold syncCheck
  split
  · rfl
  · simp only [hr, if_false]

theorem drift_playingAt_four :
    drift (playingAt (Dbl.ofRatio 4 1)) 11000 = { mant := 3, expo := 1 } := by
  decide

/-- C13 as stated fails: ten seconds into a round with the player at position 4 the
drift is 6 seconds, playback is active and the start time is known, and the drift check
sends nothing, so no `time_request`. -/
theorem large_drift_requests_resync_counterexample :
    ¬ (∀ (a : App) (now : Nat), startTimeKnown a.gameStartTime = true →
        a.videoPlayer.paused = false → Dbl.le (Dbl.ofRatio 5 1) (drift a now) →
        ∃ data, data.type = "time_request" ∧ AppEffect.send data ∈ (syncCheck a now).2) := by
  intro h
  obtain ⟨data, _, hmem⟩ := h (playingAt (Dbl.ofRatio 4 1)) 11000 rfl rfl
    (by rw [drift_playingAt_four]; decide)
  rw [syncCheck_idle _ _ (by rw [drift_playingAt_four]; decide)] at hmem
  simp at hmem

/-- C13 as amended. In a run of the drift check while playback is active and a start
time is known, a drift of at least 5 seconds makes the check do nothing: the client
state is unchanged, nothing is sent to the server (no `time_request`) and the player is
not moved. -/
theorem large_drift_no_action (a : App) (now : Nat)
    (_hstart : startTimeKnown a.gameStartTime = true)
    (_hplay : a.videoPlayer.paused = false)
    (hd : Dbl.le (Dbl.ofRatio 5 1) (drift a now)) :
    (syncCheck a now).1 = a ∧ (syncCheck a now).2 = [] ∧
    (∀ data, AppEffect.send data ∉ (syncCheck a now).2) ∧
    (∀ p, AppEffect.seek p ∉ (syncCheck a now).2) := by
  have h := syncCheck_idle a now (fun hr => hd hr.2)
  rw [h]
  simp

/-- Instance of C13 as amended: drift 6 ten seconds into a round, and drift exactly 5
at instant 6200 with the player at position 0.2. -/
theorem large_drift_no_action_witness :
    startTimeKnown (playingAt (Dbl.ofRatio 4 1)).gameStartTime = true ∧
    (playingAt (Dbl.ofRatio 4 1)).videoPlayer.paused = false ∧
    drift (playingAt (Dbl.ofRatio 4 1)) 11000 = { mant := 3, expo := 1 } ∧
    Dbl.le (Dbl.ofRatio 5 1) (drift (playingAt (Dbl.ofRatio 4 1)) 11000) ∧
    (syncCheck (playingAt (Dbl.ofRatio 4 1)) 11000).1 = playingAt (Dbl.ofRatio 4 1) ∧
    (syncCheck (playingAt (Dbl.ofRatio 4 1)) 11000).2 = [] ∧
    drift (playingAt (Dbl.ofRatio 2 10)) 6200 = { mant := 5, expo := 0 } ∧
    (syncCheck (playingAt (Dbl.ofRatio 2 10)) 6200).2 = [] :=
  ⟨rfl, rfl, by decide, by decide,
   (large_drift_no_action (playingAt (Dbl.ofRatio 4 1)) 11000 rfl rfl (by decide)).1,
   (large_drift_no_action (playingAt (Dbl.ofRatio 4 1)) 11000 rfl rfl (by decide)).2.1,
   by decide,
   (large_drift_no_action (playingAt (Dbl.ofRatio 2 10)) 6200 rfl rfl (by decide)).2.1⟩

/-! ## The start time recorded by the client -/

/-- After a `game_start` the recorded start time is the one the message carries. -/
theorem handleMessage_game_start (a : App) (videoName : Option String)
    (startTime : Option Nat) (serverTime roundNumber : Nat) (b : Browser) :
    (handleMessage a (Msg.game_start videoName startTime serverTime roundNumber) b).1.gameStartTime
      = startTime := by
  unfold handleMessage startGame startSyncCheck
  rfl

/-- A `game_sync` leaves the recorded start time as it was. -/
theorem handleMessage_game_sync (a : App) (videoName : Option String)
    (startTime : Option Nat) (elapsed : Int) (bettingOpen : Bool)
    (serverTime roundNumber : Nat) (b : Browser) :
    (handleMessage a
      (Msg.game_sync videoName startTime elapsed bettingOpen serverTime roundNumber)
      b).1.gameStartTime = a.gameStartTime := by
  unfold handleMessage syncGame startSyncCheck onMetadataLoaded
  simp only
  split <;> split <;> rfl

/-- Without a known start time the drift check does nothing. -/
theorem syncCheck_unknown_start (a : App) (now : Nat) (h : a.gameStartTime = none) :
    syncCheck a now = (a, []) := by
  unfold syncCheck
  simp [h, startTimeKnown]

/-- C14 fails on the code for `game_sync`: `syncGame` is not given the `startTime` of the
message and never assigns `gameStartTime` (`startGame` does). A freshly loaded page that
handles the late-join snapshot of round 1 (`startTime` 3000) still has no start time,
so the drift check it has just armed does nothing at any clock reading; and a client
that followed round 1 and then handles the snapshot of round 2 (`startTime` 38000)
keeps the start time 3000 of round 1. -/
theorem game_sync_startTime_not_recorded :
    (handleMessage initialApp lateJoinSnapshot browser0).1.gameStartTime = none ∧
    (handleMessage initialApp lateJoinSnapshot browser0).1.syncCheckArmed = true ∧
    (∀ now, (syncCheck (handleMessage initialApp lateJoinSnapshot browser0).1 now).2 = []) ∧
    (handleMessage afterRoundOne
      (Msg.game_sync (some "a.mp4") (some 38000) 10000 true 48000 2) browser0).1.gameStartTime
        = some 3000 := by
  refine ⟨?_, ?_, ?_, ?_⟩
  · rw [lateJoinSnapshot, handleMessage_game_sync]; rfl
  · rfl
  · intro now
    rw [syncCheck_unknown_start _ _ (by rw [lateJoinSnapshot, handleMessage_game_sync]; rfl)]
  · rw [handleMessage_game_sync]; rfl

/-! ## Sync intervals when the gap is at least the sync period -/

theorem not_lifecycle_iff (t : Timer) :
    isLifecycleTimer t = false ↔ ∃ r, t.kind = TimerKind.syncInterval r := by
  unfold isLifecycleTimer
  cases t.kind <;> simp

theorem no_sync_filter (l : List Timer)
    (h : ∀ u ∈ l, ∀ r, u.kind ≠ TimerKind.syncInterval r) :
    l.filter (fun t => !isLifecycleTimer t) = [] := by
  rw [List.filter_eq_nil_iff]
  intro u hu
  simp only [Bool.not_eq_true', Bool.not_eq_false]
  cases hl : isLifecycleTimer u with
  | true => rfl
  | false =>
    obtain ⟨r, hr⟩ := (not_lifecycle_iff u).mp hl
    exact absurd hr (h u hu r)

theorem syncTimers_setTimeout (s : Server) (kind : TimerKind) (delay : Nat) :
    syncTimers (setTimeout s kind delay) =
      syncTimers s ++
        (if isLifecycleTimer
            { id := s.nextTimerId, due := s.now + timerDelay delay, kind := kind }
         then [] else [{ id := s.nextTimerId, due := s.now + timerDelay delay, kind := kind }]) := by
  unfold syncTimers setTimeout
  simp only [List.filter_append, List.filter_cons, List.filter_nil]
  cases isLifecycleTimer
    { id := s.nextTimerId, due := s.now + timerDelay delay, kind := kind } <;> rfl

/-- Removing the fired timer and advancing the clock to its due instant keeps the sync
intervals under control. -/
theorem tickers_erase (s : Server) (t : Timer) (h : Tickers s) :
    Tickers { s with timers := s.timers.erase t, now := max s.now t.due } := by
  obtain ⟨hA, hD, hB, hC⟩ := h
  refine ⟨?_, ?_, ?_, ?_⟩
  · intro u hu
    exact hA u (List.mem_of_mem_erase hu)
  · have hsub : List.Sublist ((s.timers.erase t).filter (fun t => !isLifecycleTimer t))
        (s.timers.filter (fun t => !isLifecycleTimer t)) :=
      List.Sublist.filter _ (List.erase_sublist t s.timers)
    exact le_trans hsub.length_le hD
  · intro hp u hu r hr
    obtain ⟨h1, h2⟩ := hB hp u (List.mem_of_mem_erase hu) r hr
    refine ⟨h1, ?_⟩
    show u.due ≤ max s.now t.due + 1000
    have := le_max_left s.now t.due
    omega
  · intro hp u hu r hr st hst hk
    exact hC hp u (List.mem_of_mem_erase hu) r hr st (List.mem_of_mem_erase hst) hk

theorem tickers_setTimeout_lifecycle (s : Server) (kind : TimerKind) (delay : Nat)
    (hkind : ∀ r, kind ≠ TimerKind.syncInterval r) (u : Timer)
    (hu : u ∈ (setTimeout s kind delay).timers) (r : Nat)
    (hr : u.kind = TimerKind.syncInterval r) : u ∈ s.timers := by
  unfold setTimeout at hu
  simp only [List.mem_append, List.mem_singleton] at hu
  rcases hu with hu | hu
  · exact hu
  · subst hu
    exact absurd hr (hkind r)

/-- Firing the timer the event loop selected keeps the sync intervals under control,
provided the gap between rounds is at least the sync period and at most the largest
timer delay. -/
theorem runTimer_tickers (s : Server) (t : Timer) (videoFiles : List String) (rnd : Rand)
    (hs : Scheduled s) (hgap : 1000 ≤ s.ROUND_GAP) (hgapmax : s.ROUND_GAP ≤ TIMEOUT_MAX)
    (hT : Tickers s) (hnt : nextTimer s.timers = some t) :
    Tickers (runTimer { s with timers := s.timers.erase t, now := max s.now t.due } t
      videoFiles rnd).1 ∧
    (runTimer { s with timers := s.timers.erase t, now := max s.now t.due } t
      videoFiles rnd).1.ROUND_GAP = s.ROUND_GAP := by
  obtain ⟨hmem, hmin⟩ := nextTimer_spec _ _ hnt
  have hT1 := tickers_erase s t hT
  have hcount : isLifecycleTimer t = false →
      syncTimers ({ s with timers := s.timers.erase t, now := max s.now t.due } : Server)
        = [] := by
    intro hl
    show (s.timers.erase t).filter (fun t => !isLifecycleTimer t) = []
    rw [← List.erase_filter]
    have hin : t ∈ s.timers.filter (fun t => !isLifecycleTimer t) :=
      List.mem_filter.mpr ⟨hmem, by simp [hl]⟩
    have hlen := List.length_erase_of_mem hin
    have := hT.2.1
    unfold syncTimers at this
    apply List.eq_nil_of_length_eq_zero
    omega
  have hpend := hs.2.2
  have hsync : timerDelay 1000 = 1000 := by decide
  generalize hs1 : ({ s with timers := s.timers.erase t, now := max s.now t.due } : Server) = s1
    at hT1 hcount ⊢
  have hg : s1.gameState = s.gameState := by rw [← hs1]
  have hgap1 : s1.ROUND_GAP = s.ROUND_GAP := by rw [← hs1]
  have ht1 : ∀ u ∈ s1.timers, u ∈ s.timers := by
    intro u hu
    rw [← hs1] at hu
    exact List.mem_of_mem_erase hu
  obtain ⟨hA, hD, hB, hC⟩ := hT1
  cases hk : t.kind with
  | startNewRound =>
    have hrt : runTimer s1 t videoFiles rnd = startNewRound s1 videoFiles rnd := by
      unfold runTimer; rw [hk]
    rw [hrt]
    have hl : isLifecycleTimer t = true := by simp [isLifecycleTimer, hk]
    have hidle : s.gameState.isPlaying = false := by
      cases hip : s.gameState.isPlaying with
      | false => rfl
      | true =>
        exfalso
        have hph : phase s.gameState ≠ Phase.ended := by
          intro hc
          rw [(phase_eq_ended _).mp hc] at hip
          cases hip
        rcases pending_kinds s hpend hph t (mem_lifecycleTimers s t hmem hl) with h1 | h1
        · rw [hk] at h1; cases h1
        · rw [hk] at h1; cases h1
    have hnosync : ∀ u ∈ s1.timers, ∀ r, u.kind ≠ TimerKind.syncInterval r := by
      intro u hu r hr
      exact hmin u (ht1 u hu) (hT.2.2.2 hidle u (ht1 u hu) r hr t hmem hk)
    by_cases hv : videoFiles.length = 0
    · rw [startNewRound_noMedia _ _ _ hv]
      refine ⟨⟨?_, ?_, ?_, ?_⟩, hgap1⟩
      · intro u hu
        unfold setTimeout at hu ⊢
        simp only [List.mem_append, List.mem_singleton] at hu
        rcases hu with hu | hu
        · have := hA u hu
          show u.id < s1.nextTimerId + 1
          omega
        · subst hu
          show s1.nextTimerId < s1.nextTimerId + 1
          omega
      · rw [syncTimers_setTimeout]
        simpa [isLifecycleTimer] using hD
      · intro hp
        rw [gameState_setTimeout, hg, hidle] at hp
        cases hp
      · intro _ u hu r hr
        exact absurd hr (hnosync u
          (tickers_setTimeout_lifecycle s1 _ _ (by intro r h; cases h) u hu r hr) r)
    · unfold startNewRound
      rw [if_neg hv]
      refine ⟨⟨?_, ?_, ?_, ?_⟩, hgap1⟩
      · intro u hu
        simp only [setTimeout, List.mem_append, List.mem_singleton] at hu ⊢
        rcases hu with ((hu | hu) | hu) | hu
        · have := hA u hu
          omega
        · subst hu; simp only; omega
        · subst hu; simp only; omega
        · subst hu; simp only; omega
      · have h0 : syncTimers s1 = [] := no_sync_filter _ hnosync
        simp only [syncTimers_setTimeout, isLifecycleTimer, if_true, Bool.false_eq_true,
          if_false, List.append_nil]
        show (syncTimers s1 ++ _).length ≤ 1
        rw [h0]
        simp
      · intro _ u hu r hr
        simp only [setTimeout, List.mem_append, List.mem_singleton] at hu
        rcases hu with ((hu | hu) | hu) | hu
        · exact absurd hr (hnosync u hu r)
        · subst hu; cases hr
        · subst hu; cases hr
        · subst hu
          simp only [TimerKind.syncInterval.injEq] at hr
          subst hr
          refine ⟨rfl, ?_⟩
          simp only [hsync]
          exact le_refl _
      · intro hp
        cases hp
  | closeBetting =>
    have hrt : runTimer s1 t videoFiles rnd = closeBetting s1 := by
      unfold runTimer; rw [hk]
    rw [hrt]
    exact ⟨⟨hA, hD, hB, hC⟩, hgap1⟩
  | endRound =>
    have hrt : runTimer s1 t videoFiles rnd = endRound s1 := by
      unfold runTimer; rw [hk]
    rw [hrt]
    have hl : isLifecycleTimer t = true := by simp [isLifecycleTimer, hk]
    have hplay : s.gameState.isPlaying = true :=
      ((phase_eq_bettingClosed _).mp (endRound_fires_when_closed s t hpend hnt hk)).1
    have hnostart : ∀ u ∈ s1.timers, u.kind ≠ TimerKind.startNewRound := by
      intro u hu hku
      have hph : phase s.gameState ≠ Phase.ended := by
        intro hc
        rw [(phase_eq_ended _).mp hc] at hplay
        cases hplay
      have hul : isLifecycleTimer u = true := by simp [isLifecycleTimer, hku]
      rcases pending_kinds s hpend hph u (mem_lifecycleTimers s u (ht1 u hu) hul) with h1 | h1
      · rw [hku] at h1; cases h1
      · rw [hku] at h1; cases h1
    cases hb : betStats s1.gameState.bets with
    | error e =>
      rw [endRound_error s1 e hb]
      refine ⟨⟨hA, hD, ?_, ?_⟩, hgap1⟩
      · intro hp
        cases hp
      · intro _ u _ r _ st hst hkst
        exact absurd hkst (hnostart st hst)
    | ok stats =>
      rw [endRound_ok s1 stats hb]
      have hdelay : timerDelay s1.ROUND_GAP = s1.ROUND_GAP :=
        timerDelay_of_range _ (by rw [hgap1]; omega) (by rw [hgap1]; exact hgapmax)
      refine ⟨⟨?_, ?_, ?_, ?_⟩, hgap1⟩
      · intro u hu
        simp only [setTimeout, List.mem_append, List.mem_singleton] at hu ⊢
        rcases hu with hu | hu
        · have := hA u hu
          omega
        · subst hu; simp only; omega
      · rw [syncTimers_setTimeout]
        simpa [isLifecycleTimer, syncTimers] using hD
      · intro hp
        cases hp
      · intro _ u hu r hr st hst hkst
        simp only [setTimeout, List.mem_append, List.mem_singleton] at hu hst
        have hu1 : u ∈ s1.timers := by
          rcases hu with hu | hu
          · exact hu
          · subst hu; cases hr
        rcases hst with hst | hst
        · exact absurd hkst (hnostart st hst)
        · subst hst
          obtain ⟨_, hdue⟩ := hB (by rw [hg]; exact hplay) u hu1 r hr
          have hid := hA u hu1
          unfold Timer.before
          simp only [hdelay]
          omega
  | syncInterval round =>
    have hrt : runTimer s1 t videoFiles rnd = syncTick s1 round := by
      unfold runTimer; rw [hk]
    rw [hrt]
    have hl : isLifecycleTimer t = false := by simp [isLifecycleTimer, hk]
    have hnone := hcount hl
    unfold syncTick
    split
    · exact ⟨⟨hA, hD, hB, hC⟩, hgap1⟩
    · rename_i hpl
      have hplay : s.gameState.isPlaying = true := by
        rw [← hg]
        simpa using hpl
      have hround := (hT.2.2.1 hplay t hmem round hk).1
      refine ⟨⟨?_, ?_, ?_, ?_⟩, hgap1⟩
      · intro u hu
        simp only [setTimeout, List.mem_append, List.mem_singleton] at hu ⊢
        rcases hu with hu | hu
        · have := hA u hu
          omega
        · subst hu; simp only; omega
      · rw [syncTimers_setTimeout, hnone]
        simp [isLifecycleTimer]
      · intro _ u hu r hr
        simp only [setTimeout, List.mem_append, List.mem_singleton] at hu
        rcases hu with hu | hu
        · exact hB (by rw [hg]; exact hplay) u hu r hr
        · subst hu
          simp only [TimerKind.syncInterval.injEq] at hr
          subst hr
          refine ⟨?_, ?_⟩
          · show round = s1.gameState.roundNumber
            rw [hg]; exact hround
          · simp only [hsync]
            exact le_refl _
      · intro hp
        rw [gameState_setTimeout, hg, hplay] at hp
        cases hp

theorem step_env_clock (s : Server) (a : Action) (ha : ∀ vf rnd, a ≠ Action.timer vf rnd) :
    (step s a).1.nextTimerId = s.nextTimerId ∧ s.now ≤ (step s a).1.now ∧
    (step s a).1.ROUND_GAP = s.ROUND_GAP := by
  cases a with
  | timer vf rnd => exact absurd rfl (ha vf rnd)
  | elapse ms =>
    unfold step
    simp only
    split
    · exact ⟨rfl, Nat.le_add_right _ _, rfl⟩
    · exact ⟨rfl, le_refl _, rfl⟩
  | connect ws clientIp =>
    unfold step onConnection
    simp only
    split <;> exact ⟨rfl, le_refl _, rfl⟩
  | message ws message =>
    unfold step
    simp only
    split
    · exact ⟨rfl, le_refl _, rfl⟩
    · unfold onMessage
      split
      · exact ⟨rfl, le_refl _, rfl⟩
      · split
        · split
          · simp only
            split <;> exact ⟨rfl, le_refl _, rfl⟩
          · exact ⟨rfl, le_refl _, rfl⟩
        · split <;> exact ⟨rfl, le_refl _, rfl⟩
  | close ws =>
    unfold step
    simp only
    split <;> exact ⟨rfl, le_refl _, rfl⟩
  | transport ws readyState sendThrows =>
    exact ⟨rfl, le_refl _, rfl⟩

/-- Every turn keeps the sync intervals under control when the gap between rounds is at
least the sync period and at most the largest timer delay. -/
theorem step_tickers (s : Server) (a : Action) (hs : Scheduled s)
    (hgap : 1000 ≤ s.ROUND_GAP) (hgapmax : s.ROUND_GAP ≤ TIMEOUT_MAX) (hT : Tickers s) :
    Tickers (step s a).1 ∧ (step s a).1.ROUND_GAP = s.ROUND_GAP := by
  by_cases ha : ∀ vf rnd, a ≠ Action.timer vf rnd
  · obtain ⟨e1, e2, _, e4, _, _, _⟩ := step_env s a ha
    obtain ⟨c1, c2, c3⟩ := step_env_clock s a ha
    obtain ⟨hA, hD, hB, hC⟩ := hT
    refine ⟨⟨?_, ?_, ?_, ?_⟩, c3⟩
    · intro u hu
      rw [e1] at hu
      rw [c1]
      exact hA u hu
    · unfold syncTimers at hD ⊢
      rw [e1]
      exact hD
    · intro hp u hu r hr
      rw [e1] at hu
      rw [e2] at hp
      obtain ⟨h1, h2⟩ := hB hp u hu r hr
      rw [e4]
      exact ⟨h1, by omega⟩
    · intro hp u hu r hr st hst hk
      rw [e1] at hu hst
      rw [e2] at hp
      exact hC hp u hu r hr st hst hk
  · push_neg at ha
    obtain ⟨vf, rnd, rfl⟩ := ha
    cases hnt : nextTimer s.timers with
    | none =>
      have hq : step s (Action.timer vf rnd) = (s, []) := by
        unfold step; simp only [hnt]
      rw [hq]
      exact ⟨hT, rfl⟩
    | some t =>
      have hq : step s (Action.timer vf rnd) =
          runTimer { s with timers := s.timers.erase t, now := max s.now t.due } t vf rnd := by
        unfold step; simp only [hnt]
      rw [hq]
      exact runTimer_tickers s t vf rnd hs hgap hgapmax hT hnt

theorem run_tickers (as : List Action) :
    ∀ s : Server, Scheduled s → 1000 ≤ s.ROUND_GAP → s.ROUND_GAP ≤ TIMEOUT_MAX → Tickers s →
      Tickers (run s as).1 ∧ Scheduled (run s as).1 := by
  induction as with
  | nil => intro s hs _ _ hT; exact ⟨hT, hs⟩
  | cons a rest ih =>
    intro s hs hgap hgapmax hT
    obtain ⟨h1, h2⟩ := step_tickers s a hs hgap hgapmax hT
    simp only [run]
    exact ih (step s a).1 (step_scheduled s a hs).1 (by rw [h2]; exact hgap)
      (by rw [h2]; exact hgapmax) h1

theorem tickers_initialServer (bd rd gap t0 : Nat) : Tickers (initialServer bd rd gap t0) := by
  refine ⟨?_, ?_, ?_, ?_⟩
  · intro u hu
    simp only [initialServer, List.mem_singleton] at hu
    subst hu
    show 0 < 1
    omega
  · simp [syncTimers, initialServer, isLifecycleTimer]
  · intro hp; cases hp
  · intro _ u hu r hr
    simp only [initialServer, List.mem_singleton] at hu
    subst hu
    cases hr

/-- When the gap between rounds is at least the sync period of 1000 ms, and the round
and the gap are at most the largest timer delay, the claim of C12 holds on the code: in
every state reached from start-up at most one sync interval is armed, and a sync
interval that fires and broadcasts `time_sync` is the one of the round in progress (its
round is the current round and that round is playing), so the interval of a round that
has ended never broadcasts again. -/
theorem sync_interval_of_round_in_progress (bd rd gap t0 : Nat) (hd : bd ≤ rd)
    (hr : rd ≤ 2147483647) (hgap : 1000 ≤ gap) (hgapmax : gap ≤ 2147483647)
    (as : List Action) :
    (syncTimers (run (initialServer bd rd gap t0) as).1).length ≤ 1 ∧
    ∀ (t : Timer) (r : Nat) (vf : List String) (rnd : Rand),
      nextTimer (run (initialServer bd rd gap t0) as).1.timers = some t →
      t.kind = TimerKind.syncInterval r →
      (step (run (initialServer bd rd gap t0) as).1 (Action.timer vf rnd)).2 ≠ [] →
      (run (initialServer bd rd gap t0) as).1.gameState.isPlaying = true ∧
      r = (run (initialServer bd rd gap t0) as).1.gameState.roundNumber := by
  obtain ⟨hT, _⟩ := run_tickers as _ (scheduled_initialServer bd rd gap t0 hd hr)
    (show 1000 ≤ (initialServer bd rd gap t0).ROUND_GAP from hgap)
    (show (initialServer bd rd gap t0).ROUND_GAP ≤ TIMEOUT_MAX from hgapmax)
    (tickers_initialServer bd rd gap t0)
  refine ⟨hT.2.1, ?_⟩
  intro t r vf rnd hnt hk hne
  generalize run (initialServer bd rd gap t0) as = q at hT hnt hne ⊢
  have hmem := (nextTimer_spec _ _ hnt).1
  have hplay : q.1.gameState.isPlaying = true := by
    cases hip : q.1.gameState.isPlaying with
    | true => rfl
    | false =>
      exfalso
      apply hne
      unfold step
      simp only [hnt]
      unfold runTimer
      rw [hk]
      simp only [syncTick, hip, Bool.not_false, if_true]
  exact ⟨hplay, (hT.2.2.1 hplay t hmem r hk).1⟩

end WorkGame
